import Mathlib

/-!
Verification of the render-job scheduler and persistent priority queue of the
chromium-pdf-service repository, against its natural-language specification.

The embedding models:
* the `QueueManager` store (`src/src/services/queue-manager.ts`, second class
  in the file: the variant with debounced persistence, which the service
  exports) — jobs live in a JS `Map` (insertion-ordered, unique keys), the
  concurrency accounting in a JS `Set` of keys;
* the `PdfGenerator` worker loop (`src/src/services/pdf-generator.ts`);
* the submission route handlers (`src/src/routes/pdf.routes.ts`) and the zod
  request validation relevant to them;
* the artifact namer (`src/utils/filename.ts`, the date-folder variant).

JS `Map` is modelled as an insertion-ordered association list, JS `Set` as an
insertion-ordered duplicate-free list.  JS `Date` values are epoch
milliseconds (`Nat`); each operation that calls `new Date()` takes the instant
as an explicit `now` parameter.  JS numbers that hold integral values
(priority, progress) are modelled as `Int`.  Filesystem and logging effects
are outside the store state and are not modelled; the store-level part of each
operation is translated faithfully.
-/

namespace PdfService

/-- Job status enumeration, from `src/src/types/index.ts`:
`queued | processing | completed | failed | cancelled`. -/
inductive JobStatus
  | queued
  | processing
  | completed
  | failed
  | cancelled
  deriving DecidableEq

/-- Job source type, from `src/src/types/index.ts`: `html | url | file`. -/
inductive JobType
  | html
  | url
  | file
  deriving DecidableEq

/-- The `PdfJob` record of `src/src/types/index.ts`.  Timestamps are epoch
milliseconds.  The `options.browser` / `options.pdf` payloads are carried
opaquely by the store and never influence any store operation, so they are
not modelled. -/
structure Job where
  requestedKey : String
  type : JobType
  source : String
  priority : Int
  status : JobStatus
  progress : Int
  createdAt : Nat
  updatedAt : Nat
  filePath : Option String := none
  error : Option String := none
  deriving DecidableEq

/-- A JS `Map<string, QueuedJob>`: insertion-ordered association list with
unique keys. -/
abbrev JobMap := List (String × Job)

/-- `Map.get`: the value at the (unique) matching key. -/
def mapGet : JobMap → String → Option Job
  | [], _ => none
  | e :: rest, k => if e.1 == k then some e.2 else mapGet rest k

/-- `Map.set`: replace the entry in place when the key is present (JS `Map`
keeps the original insertion position on overwrite), append otherwise. -/
def mapSet : JobMap → String → Job → JobMap
  | [], k, v => [(k, v)]
  | e :: rest, k, v => if e.1 == k then (k, v) :: rest else e :: mapSet rest k v

/-- `Map.delete`. -/
def mapDelete : JobMap → String → JobMap
  | [], _ => []
  | e :: rest, k => if e.1 == k then mapDelete rest k else e :: mapDelete rest k

/-- In-place mutation of the job stored under `k` (the source mutates the
object obtained from `Map.get`; in the persistent model this is a field
update of the entry). -/
def mapUpdate : JobMap → String → (Job → Job) → JobMap
  | [], _, _ => []
  | e :: rest, k, f =>
    if e.1 == k then (e.1, f e.2) :: rest else e :: mapUpdate rest k f

/-- `Set.add` on a JS `Set<string>`. -/
def setAdd (s : List String) (k : String) : List String :=
  if s.contains k then s else s ++ [k]

/-- `Set.delete` on a JS `Set<string>`. -/
def setDelete (s : List String) (k : String) : List String :=
  s.filter (fun x => x != k)

/-- The mutable state of `QueueManager`: `private queue: Map<string, QueuedJob>`
and `private processing: Set<string>`.  (The `isProcessing` coalescing flag and
the debounce timer handle only affect signalling and persistence timing, not
the job data, and are not part of this state.) -/
structure QueueState where
  queue : JobMap
  processing : List String
  deriving DecidableEq

/-- The empty store (constructor state before any load). -/
def initState : QueueState := ⟨[], []⟩

/-- Statuses the source treats as terminal. -/
def isTerminal (s : JobStatus) : Bool :=
  s == .completed || s == .failed || s == .cancelled

/-- Input to `addJob`: a `PdfJob` minus the fields the store fills in
(`status`, `progress`, `createdAt`, `updatedAt`). -/
structure JobInput where
  requestedKey : String
  type : JobType
  source : String
  priority : Int
  deriving DecidableEq

/-- The two synchronous failures `addJob` can throw. -/
inductive AddJobError
  | queueFull
  | duplicateKey
  deriving DecidableEq

/-- `QueueManager.addJob` (queue-manager.ts lines 369-403).  Checks the size
cap first (`this.queue.size >= settings.queue.maxSize`), then the duplicate
key (`this.queue.has(job.requestedKey)`), then inserts the new job with
`status = queued`, `progress = 0`, `createdAt = updatedAt = now`. -/
def addJob (st : QueueState) (maxSize : Nat) (inp : JobInput) (now : Nat) :
    Except AddJobError (QueueState × Job) :=
  if st.queue.length ≥ maxSize then
    .error .queueFull
  else if (mapGet st.queue inp.requestedKey).isSome then
    .error .duplicateKey
  else
    let queuedJob : Job :=
      { requestedKey := inp.requestedKey
        type := inp.type
        source := inp.source
        priority := inp.priority
        status := .queued
        progress := 0
        createdAt := now
        updatedAt := now }
    .ok ({ st with queue := mapSet st.queue inp.requestedKey queuedJob }, queuedJob)

/-- `QueueManager.cancelJob` (lines 434-460).  Returns `false` when the job is
missing or already `completed`/`failed`; otherwise sets `status = cancelled`
and bumps `updatedAt` (both the `processing` branch and the queued fallthrough
perform the same store change).  The `processing` set is not touched. -/
def cancelJob (st : QueueState) (k : String) (now : Nat) : QueueState × Bool :=
  match mapGet st.queue k with
  | none => (st, false)
  | some job =>
    if job.status == .completed || job.status == .failed then
      (st, false)
    else
      ({ st with
          queue := mapUpdate st.queue k
            (fun j => { j with status := .cancelled, updatedAt := now }) },
        true)

/-- `QueueManager.removeJob` (lines 466-492), store-level part.  Refuses when
the job is missing or `processing`; otherwise deletes the map entry.  (The
artifact-file unlink is a filesystem effect outside the store state.)  The
`processing` set is not touched. -/
def removeJob (st : QueueState) (k : String) : QueueState × Bool :=
  match mapGet st.queue k with
  | none => (st, false)
  | some job =>
    if job.status == .processing then
      (st, false)
    else
      ({ st with queue := mapDelete st.queue k }, true)

/-- `QueueManager.updateJobProgress` (lines 494-501).  Only when the job
exists and its status is `processing`: clamp to `[0, 100]` via
`Math.min(100, Math.max(0, progress))` and bump `updatedAt`. -/
def updateJobProgress (st : QueueState) (k : String) (progress : Int) (now : Nat) :
    QueueState :=
  match mapGet st.queue k with
  | none => st
  | some job =>
    if job.status == .processing then
      { st with
          queue := mapUpdate st.queue k
            (fun j => { j with progress := min 100 (max 0 progress), updatedAt := now }) }
    else
      st

/-- The optional `extra` argument of `updateJobStatus`. -/
structure StatusExtra where
  filePath : Option String := none
  error : Option String := none
  deriving DecidableEq

/-- JS truthiness of an optional string: present and non-empty. -/
def strTruthy : Option String → Bool
  | none => false
  | some s => s != ""

/-- `QueueManager.updateJobStatus` (lines 503-526).  For any existing job —
with no guard on the current status — sets the new status, bumps `updatedAt`,
copies truthy `extra.filePath` / `extra.error`, and on `completed` forces
`progress = 100`.  The key is removed from the `processing` set only for
`completed` and `failed`. -/
def updateJobStatus (st : QueueState) (k : String) (status : JobStatus)
    (extra : StatusExtra) (now : Nat) : QueueState :=
  match mapGet st.queue k with
  | none => st
  | some _ =>
    let newQueue := mapUpdate st.queue k (fun j =>
      let j1 := { j with status := status, updatedAt := now }
      let j2 := if strTruthy extra.filePath then { j1 with filePath := extra.filePath } else j1
      let j3 := if strTruthy extra.error then { j2 with error := extra.error } else j2
      if status == .completed then { j3 with progress := 100 } else j3)
    if status == .completed || status == .failed then
      { queue := newQueue, processing := setDelete st.processing k }
    else
      { queue := newQueue, processing := st.processing }

/-- `QueueManager.markAsProcessing` (lines 549-558).  Only when the job exists
with status `queued`: set `processing`, bump `updatedAt`, add the key to the
`processing` set. -/
def markAsProcessing (st : QueueState) (k : String) (now : Nat) : QueueState :=
  match mapGet st.queue k with
  | none => st
  | some job =>
    if job.status == .queued then
      { queue := mapUpdate st.queue k
          (fun j => { j with status := .processing, updatedAt := now })
        processing := setAdd st.processing k }
    else
      st

/-- The sort comparator of `getNextJob`, as a total boolean order usable by a
stable sort: `jobLE a b` holds exactly when the JS comparator
`(a, b) => b.priority !== a.priority ? b.priority - a.priority
                                     : a.createdAt - b.createdAt`
returns a non-positive number, i.e. when `a` may be placed before `b`. -/
def jobLE (a b : Job) : Bool :=
  if b.priority != a.priority then b.priority ≤ a.priority
  else a.createdAt ≤ b.createdAt

/-- `QueueManager.getNextJob` (lines 528-547).  Refuses when
`processing.size ≥ maxConcurrent`; otherwise takes the jobs with status
`queued`, sorts them with the comparator above (JS `Array.prototype.sort` is
stable, modelled by the stable `List.mergeSort`), and returns the first. -/
def getNextJob (st : QueueState) (maxConcurrent : Nat) : Option Job :=
  if st.processing.length ≥ maxConcurrent then
    none
  else
    (((st.queue.map (·.2)).filter (fun j => j.status == .queued)).mergeSort jobLE).head?

/-- `QueueManager.cleanupOldJobs` (lines 579-599).  Deletes every job whose
status is terminal and whose `updatedAt` is strictly older than `maxAgeMs`;
returns the new state and the count deleted.  The `processing` set is not
touched. -/
def cleanupOldJobs (st : QueueState) (maxAgeMs : Int) (now : Int) :
    QueueState × Nat :=
  let keep := st.queue.filter (fun e =>
    !(isTerminal e.2.status && decide (now - (e.2.updatedAt : Int) > maxAgeMs)))
  ({ st with queue := keep }, st.queue.length - keep.length)

/-- A record of the persisted snapshot array (`PersistedJob` in
queue-manager.ts).  Timestamps are persisted as ISO strings and re-parsed
with `new Date(...)`; that round-trip is the identity on the epoch value, so
they are modelled as the epoch `Nat` directly. -/
structure PersistedJob where
  requestedKey : String
  type : JobType
  source : String
  priority : Int
  status : JobStatus
  progress : Int
  createdAt : Nat
  updatedAt : Nat
  filePath : Option String := none
  error : Option String := none
  deriving DecidableEq

/-- The per-record body of the `loadFromFile` loop (lines 300-319): a
persisted `processing` status is rewritten to `queued`, a job whose resulting
status is `queued` gets `progress = 0`, and the record is `Map.set` into the
store. -/
def loadStep (st : QueueState) (job : PersistedJob) : QueueState :=
  let status : JobStatus := if job.status == .processing then .queued else job.status
  let queuedJob : Job :=
    { requestedKey := job.requestedKey
      type := job.type
      source := job.source
      priority := job.priority
      status := status
      progress := if status == .queued then 0 else job.progress
      createdAt := job.createdAt
      updatedAt := job.updatedAt
      filePath := job.filePath
      error := job.error }
  { st with queue := mapSet st.queue job.requestedKey queuedJob }

/-- `QueueManager.loadFromFile` (lines 291-328), for a present, parseable
snapshot: the records are folded into the empty store in order (a later
duplicate key overwrites an earlier one, as `Map.set` does).  The returned
flag records that `processQueue()` is invoked after the loop — the scheduler
trigger. -/
def loadFromFile (jobs : List PersistedJob) : QueueState × Bool :=
  (jobs.foldl loadStep initState, true)

/-! ## Render worker (`src/src/services/pdf-generator.ts`)

`PdfGenerator.processJob` runs the retry loop around `generatePdf`.  The
browser work itself (navigation, waits, capture, file write) is external IO;
its outcome, together with the timing of any concurrent `cancelJob` call
relative to the worker's two cancellation reads, is supplied as an
environment.  Each attempt is described by one `AttemptEnv`; `processJob`
consumes one per loop iteration, so a list of length `retryAttempts + 1`
models a full run. -/

/-- When, relative to the current attempt's cancellation reads, an external
`cancelJob` call lands: before the top-of-loop status read, between that read
and the pre-capture checkpoint, or after the checkpoint (while capture and
write are in flight). -/
inductive CancelWhen
  | beforeTop
  | beforeCheckpoint
  | afterCheckpoint
  deriving DecidableEq

/-- One attempt's environment: the timing of an external cancellation (if
any) and the outcome of the capture-and-write phase when it is reached
(`.ok filePath` or `.error message`), plus the path of the best-effort error
screenshot when that diagnostic succeeds. -/
structure AttemptEnv where
  cancelAt : Option CancelWhen
  gen : Except String String
  screenshot : Option String := none

/-- Error enhancement in `generatePdf`'s catch block: the original message,
suffixed with the diagnostic screenshot path when one was captured. -/
def enhanceError (msg : String) (screenshot : Option String) : String :=
  match screenshot with
  | some p => msg ++ " (screenshot: " ++ p ++ ")"
  | none => msg

/-- The store-visible behaviour of one `generatePdf` call (pdf-generator.ts
lines 130-289): progress reports at 10/40/50/60, then the pre-capture
cancellation checkpoint (`getJob(...).status === 'cancelled'` throws
`Job was cancelled`), then capture, progress 70/100 and the file path on
success; any thrown error is enhanced with the screenshot path.  An external
`cancelJob` scheduled `beforeCheckpoint` / `afterCheckpoint` is interleaved at
the corresponding point. -/
def generatePdf (st : QueueState) (k : String) (env : AttemptEnv) (now : Nat) :
    QueueState × Except String String :=
  let st := updateJobProgress st k 10 now
  let st := updateJobProgress st k 40 now
  let st := updateJobProgress st k 50 now
  let st := updateJobProgress st k 60 now
  let st := if env.cancelAt == some CancelWhen.beforeCheckpoint then (cancelJob st k now).1 else st
  let cancelledNow : Bool := match mapGet st.queue k with
    | some j => j.status == .cancelled
    | none => false
  if cancelledNow then
    (st, .error (enhanceError "Job was cancelled" env.screenshot))
  else
    let st := if env.cancelAt == some CancelWhen.afterCheckpoint then (cancelJob st k now).1 else st
    match env.gen with
    | .ok path =>
      let st := updateJobProgress st k 70 now
      let st := updateJobProgress st k 100 now
      (st, .ok path)
    | .error msg =>
      (st, .error (enhanceError msg env.screenshot))

/-- The retry loop of `processJob` (lines 81-115).  Each iteration re-reads
the job and returns silently when it is `cancelled`; otherwise it runs one
attempt: on success the job is marked `completed` with the file path, on error
it either retries (when attempts remain) or marks the job `failed` with the
enhanced message. -/
def runAttempts (st : QueueState) (k : String) (envs : List AttemptEnv) (now : Nat) :
    QueueState :=
  match envs with
  | [] => st
  | env :: rest =>
    let st := if env.cancelAt == some CancelWhen.beforeTop then (cancelJob st k now).1 else st
    let cancelledNow : Bool := match mapGet st.queue k with
      | some j => j.status == .cancelled
      | none => false
    if cancelledNow then
      st
    else
      let (st1, r) := generatePdf st k env now
      match r with
      | .ok path => updateJobStatus st1 k .completed { filePath := some path } now
      | .error msg =>
        match rest with
        | [] => updateJobStatus st1 k .failed { error := some msg } now
        | _ :: _ => runAttempts st1 k rest now

/-- `PdfGenerator.processJob` (lines 67-119): returns immediately when the job
is already `cancelled`, otherwise calls `markAsProcessing` and enters the
retry loop.  (A missing job cannot arise in the source, where the job object
itself is passed; modelled as a no-op entry check.) -/
def processJob (st : QueueState) (k : String) (envs : List AttemptEnv) (now : Nat) :
    QueueState :=
  match mapGet st.queue k with
  | none => st
  | some j =>
    if j.status == .cancelled then st
    else runAttempts (markAsProcessing st k now) k envs now

/-! ## Submission routes (`src/src/routes/pdf.routes.ts`) and request
validation (`src/src/schemas/pdf.schema.ts`) -/

/-- Character class of the `requestedKey` regex `^[a-zA-Z0-9_-]+$`, stated on
code points: lowercase letters 97-122, uppercase 65-90, digits 48-57,
underscore 95, hyphen 45. -/
def isKeyChar (c : Char) : Bool :=
  ((97 ≤ c.toNat && c.toNat ≤ 122) || (65 ≤ c.toNat && c.toNat ≤ 90)
    || (48 ≤ c.toNat && c.toNat ≤ 57) || c.toNat == 95 || c.toNat == 45)

/-- The zod `requestedKey` validator: `z.string().min(1).max(255).regex(...)`. -/
def validKey (s : String) : Bool :=
  1 ≤ s.length && s.length ≤ 255 && s.data.all isKeyChar

/-- The zod queue-options validator `priority: z.number().int().min(1).max(10)
.optional()` — an out-of-range priority is rejected, not clamped. -/
def validPriority : Option Int → Bool
  | none => true
  | some p => 1 ≤ p && p ≤ 10

/-- The `existingPdf` response shape assembled by `getExistingCompletedPdf`. -/
structure ExistingPdfResponse where
  requestedKey : String
  status : JobStatus
  filePath : String
  createdAt : Nat
  updatedAt : Nat
  deriving DecidableEq

/-- `getExistingCompletedPdf` (pdf.routes.ts lines 13-26): a response is
returned exactly when the job exists, its status is `completed`, and its
`filePath` is truthy (present and non-empty). -/
def getExistingCompletedPdf (st : QueueState) (k : String) :
    Option ExistingPdfResponse :=
  match mapGet st.queue k with
  | none => none
  | some j =>
    match j.filePath with
    | none => none
    | some fp =>
      if j.status == .completed && fp != "" then
        some { requestedKey := k, status := j.status, filePath := fp
               createdAt := j.createdAt, updatedAt := j.updatedAt }
      else
        none

/-- Outcome of a submission handler, as far as the store is concerned. -/
inductive SubmitResult
  | existing (r : ExistingPdfResponse)
  | queuedJob (j : Job)
  | invalidRequest
  | conflict (e : AddJobError)
  deriving DecidableEq

/-- The `POST /api/pdf/from-html` handler (pdf.routes.ts lines 112-161)
composed with `pdfGenerator.generateFromHtml` (pdf-generator.ts lines
295-314): zod-validate, then either the `reCreate` removal or the idempotent
completed-hit check, then `addJob` with `priority ?? 5`.  The html payload
must be non-empty (`z.string().min(1)`); its content does not affect the
store. -/
def postFromHtml (st : QueueState) (maxSize : Nat) (key html : String)
    (reCreate : Bool) (priority : Option Int) (now : Nat) :
    QueueState × SubmitResult :=
  if !(validKey key && validPriority priority && html != "") then
    (st, .invalidRequest)
  else
    let afterPre :=
      if reCreate then ((removeJob st key).1, none)
      else (st, getExistingCompletedPdf st key)
    match afterPre with
    | (st1, some r) => (st1, .existing r)
    | (st1, none) =>
      match addJob st1 maxSize
          { requestedKey := key, type := .html, source := html,
            priority := priority.getD 5 } now with
      | .ok (st2, j) => (st2, .queuedJob j)
      | .error e => (st1, .conflict e)

/-- The `POST /api/pdf/from-file` handler (pdf.routes.ts lines 324-432)
composed with `pdfGenerator.generateFromFile` (pdf-generator.ts lines
337-356): the key is checked only against `^[a-zA-Z0-9_-]+$` (no zod, no
length cap), the `options` JSON is passed through unvalidated, and the job is
enqueued with `priority ?? 5` — the priority is not range-checked on this
path. -/
def postFromFile (st : QueueState) (maxSize : Nat) (key htmlContent : String)
    (reCreate : Bool) (priority : Option Int) (now : Nat) :
    QueueState × SubmitResult :=
  if !(key != "" && key.data.all isKeyChar) then
    (st, .invalidRequest)
  else
    let afterPre :=
      if reCreate then ((removeJob st key).1, none)
      else (st, getExistingCompletedPdf st key)
    match afterPre with
    | (st1, some r) => (st1, .existing r)
    | (st1, none) =>
      match addJob st1 maxSize
          { requestedKey := key, type := .file, source := htmlContent,
            priority := priority.getD 5 } now with
      | .ok (st2, j) => (st2, .queuedJob j)
      | .error e => (st1, .conflict e)

/-! ## Artifact namer (`src/utils/filename.ts`, the date-folder variant)

JS strings are modelled through their character lists.  `String(n)` on a
non-negative integer is the plain decimal numeral; it is modelled by a
fuel-indexed structurally recursive printer so that concrete instances reduce
by `rfl`/`decide`. -/

/-- The decimal digit character for `d ∈ [0, 9]`. -/
def digitChar (d : Nat) : Char := Char.ofNat (48 + d)

/-- Decimal printer with explicit fuel (any fuel `> n` gives the numeral of
`n`; see `decimalAux_spec`). -/
def decimalAux : Nat → Nat → List Char
  | 0, _ => []
  | fuel + 1, n =>
    if n < 10 then [digitChar n]
    else decimalAux fuel (n / 10) ++ [digitChar (n % 10)]

/-- JS `String(n)` for a non-negative integer: the decimal numeral. -/
def natToString (n : Nat) : String := String.mk (decimalAux (n + 1) n)

/-- JS `String.prototype.padStart(2, "0")`. -/
def pad2 (s : String) : String :=
  if s.length ≥ 2 then s else String.mk (List.replicate (2 - s.length) '0') ++ s

/-- A JS `Date` value, split into the local-time components the namer reads
(`getFullYear`, `getMonth` — 0-based, `getDate`, `getHours`, `getMinutes`,
`getSeconds`) plus the sub-second milliseconds that the namer discards. -/
structure Instant where
  year : Nat
  month0 : Nat
  day : Nat
  hour : Nat
  minute : Nat
  second : Nat
  ms : Nat
  deriving DecidableEq

/-- Component ranges of a calendar instant.  The year bound keeps
`getFullYear` at four decimal digits, which the date-folder regex
`^(\d{2})-(\d{2})-(\d{4})$` requires. -/
def Instant.Valid (t : Instant) : Prop :=
  1000 ≤ t.year ∧ t.year ≤ 9999 ∧ t.month0 ≤ 11 ∧ 1 ≤ t.day ∧ t.day ≤ 31 ∧
    t.hour ≤ 23 ∧ t.minute ≤ 59 ∧ t.second ≤ 59

instance (t : Instant) : Decidable t.Valid := by
  unfold Instant.Valid; infer_instance

/-- Truncation to second resolution: what `new Date(y, m, d, h, mi, s)`
reconstructs from the named components. -/
def Instant.truncSec (t : Instant) : Instant := { t with ms := 0 }

/-- `generateDateFolder` (filename.ts lines 5-11): `dd-mm-yyyy` from local
time, day and month padded to two digits, month 1-based. -/
def generateDateFolder (t : Instant) : String :=
  pad2 (natToString t.day) ++ "-" ++ pad2 (natToString (t.month0 + 1)) ++ "-"
    ++ natToString t.year

/-- `generateTimestamp` (filename.ts lines 17-23): `HH-MM-SS` from local
time. -/
def generateTimestamp (t : Instant) : String :=
  pad2 (natToString t.hour) ++ "-" ++ pad2 (natToString t.minute) ++ "-"
    ++ pad2 (natToString t.second)

/-- `generatePdfFilename` (filename.ts lines 30-32):
the key, a double underscore, the `HH-MM-SS` timestamp, extension `.pdf`. -/
def generatePdfFilename (requestedKey : String) (t : Instant) : String :=
  requestedKey ++ "__" ++ generateTimestamp t ++ ".pdf"

/-- `generateErrorScreenshotFilename` (filename.ts lines 39-41). -/
def generateErrorScreenshotFilename (requestedKey : String) (t : Instant) : String :=
  requestedKey ++ "__error__" ++ generateTimestamp t ++ ".png"

/-- Character class of the JS regex `.` without flags: everything but the
four line terminators LF (10), CR (13), LINE SEPARATOR (8232) and PARAGRAPH
SEPARATOR (8233). -/
def jsDot (c : Char) : Bool :=
  !(c.toNat == 10) && !(c.toNat == 13) && !(c.toNat == 8232)
    && !(c.toNat == 8233)

/-- Character class of the JS regex `\d`: the decimal digits 48-57. -/
def isDigitChar (c : Char) : Bool :=
  48 ≤ c.toNat && c.toNat ≤ 57

/-- Numeric value of a run of digit characters, as `parseInt(s, 10)` computes
it on an all-digit string. -/
def digitsVal (cs : List Char) : Nat :=
  cs.foldl (fun a c => a * 10 + (c.toNat - 48)) 0

/-- `parsePdfFilename` (filename.ts lines 48-88).  The greedy regex
`^(.+)__(\d{2})-(\d{2})-(\d{2})\.pdf$` has a fixed-length 14-character tail,
so a match decomposes the name uniquely into a non-empty key (of
line-terminator-free characters) and the two-digit time fields.  The optional
`dateFolder` is matched against `^(\d{2})-(\d{2})-(\d{4})$`; on success its
fields replace the current date (`today`), month converted back to 0-based.
The returned timestamp is `new Date(year, month, day, hour, minute, second)`,
whose sub-second part is zero.

First the folder part: the regex `^(\d{2})-(\d{2})-(\d{4})$` forces the shape
of the ten characters; on a match the year, the month (converted back to
0-based) and the day replace the current date, otherwise the current date
(`today`) is kept. -/
def parseDateFolder (folder : String) (today : Instant) : Nat × Nat × Nat :=
  match folder.data with
  | [d1, d2, c1, n1, n2, c2, y1, y2, y3, y4] =>
    if c1 == '-' && c2 == '-'
        && [d1, d2, n1, n2, y1, y2, y3, y4].all isDigitChar then
      (digitsVal [y1, y2, y3, y4], digitsVal [n1, n2] - 1, digitsVal [d1, d2])
    else (today.year, today.month0, today.day)
  | _ => (today.year, today.month0, today.day)

/-- The filename part of `parsePdfFilename`: the fixed 14-character tail is
split off and its literal characters and digit classes are checked, exactly
as the greedy regex forces; the remaining prefix must be non-empty and free of
line terminators to be matched by `(.+)`. -/
def parsePdfFilename (filename : String) (dateFolder : Option String)
    (today : Instant) : Option (String × Instant) :=
  let cs := filename.data
  if cs.length < 15 then none
  else
    let key := cs.take (cs.length - 14)
    match cs.drop (cs.length - 14) with
    | [u1, u2, h1, h2, c1, m1, m2, c2, s1, s2, dot, p1, p2, p3] =>
      if u1 == '_' && u2 == '_' && c1 == '-' && c2 == '-' && dot == '.'
          && p1 == 'p' && p2 == 'd' && p3 == 'f'
          && [h1, h2, m1, m2, s1, s2].all isDigitChar
          && key.all jsDot then
        let base :=
          match dateFolder with
          | none => (today.year, today.month0, today.day)
          | some folder => parseDateFolder folder today
        some (String.mk key,
          { year := base.1, month0 := base.2.1, day := base.2.2,
            hour := digitsVal [h1, h2], minute := digitsVal [m1, m2],
            second := digitsVal [s1, s2], ms := 0 })
      else none
    | _ => none

/-! ## Basic lemmas about the `Map` / `Set` model -/

theorem beq_false_of_ne {a b : String} (h : ¬ a = b) : (a == b) = false :=
  beq_eq_false_iff_ne.mpr h

theorem mapGet_mapUpdate_self (m : JobMap) (k : String) (f : Job → Job) :
    mapGet (mapUpdate m k f) k = (mapGet m k).map f := by
  induction m with
  | nil => rfl
  | cons e rest ih =>
    by_cases he : e.1 == k
    · simp [mapGet, mapUpdate, he]
    · simp [mapGet, mapUpdate, he, ih]

theorem mapGet_mapUpdate_ne (m : JobMap) (k k2 : String) (f : Job → Job)
    (h : ¬ k2 = k) : mapGet (mapUpdate m k f) k2 = mapGet m k2 := by
  induction m with
  | nil => rfl
  | cons e rest ih =>
    by_cases he : e.1 == k
    · have he' : e.1 = k := by simpa using he
      have he2 : (e.1 == k2) = false :=
        beq_false_of_ne (fun hk => h (by rw [← hk, he']))
      simp [mapGet, mapUpdate, he, he2]
    · by_cases he2 : e.1 == k2
      · simp [mapGet, mapUpdate, he, he2]
      · simp [mapGet, mapUpdate, he, he2, ih]

theorem mapGet_mapSet_self (m : JobMap) (k : String) (v : Job) :
    mapGet (mapSet m k v) k = some v := by
  induction m with
  | nil => simp [mapGet, mapSet]
  | cons e rest ih =>
    by_cases he : e.1 == k
    · simp [mapGet, mapSet, he]
    · simp [mapGet, mapSet, he, ih]

theorem mapGet_mapSet_ne (m : JobMap) (k k2 : String) (v : Job) (h : ¬ k2 = k) :
    mapGet (mapSet m k v) k2 = mapGet m k2 := by
  have hk2 : (k == k2) = false := beq_false_of_ne (fun hk => h hk.symm)
  induction m with
  | nil => simp [mapGet, mapSet, hk2]
  | cons e rest ih =>
    by_cases he : e.1 == k
    · have he' : e.1 = k := by simpa using he
      have he2 : (e.1 == k2) = false :=
        beq_false_of_ne (fun hk => h (by rw [← hk, he']))
      simp [mapGet, mapSet, he, he2, hk2]
    · by_cases he2 : e.1 == k2
      · simp [mapGet, mapSet, he, he2]
      · simp [mapGet, mapSet, he, he2, ih]

theorem mapGet_mapDelete_self (m : JobMap) (k : String) :
    mapGet (mapDelete m k) k = none := by
  induction m with
  | nil => rfl
  | cons e rest ih =>
    by_cases he : e.1 == k
    · simp [mapDelete, he, ih]
    · simp [mapGet, mapDelete, he, ih]

theorem mapGet_mapDelete_ne (m : JobMap) (k k2 : String) (h : ¬ k2 = k) :
    mapGet (mapDelete m k) k2 = mapGet m k2 := by
  induction m with
  | nil => rfl
  | cons e rest ih =>
    by_cases he : e.1 == k
    · have he' : e.1 = k := by simpa using he
      have he2 : (e.1 == k2) = false :=
        beq_false_of_ne (fun hk => h (by rw [← hk, he']))
      simp [mapGet, mapDelete, he, he2, ih]
    · by_cases he2 : e.1 == k2
      · simp [mapGet, mapDelete, he, he2]
      · simp [mapGet, mapDelete, he, he2, ih]

theorem keys_mapUpdate (m : JobMap) (k : String) (f : Job → Job) :
    (mapUpdate m k f).map (·.1) = m.map (·.1) := by
  induction m with
  | nil => rfl
  | cons e rest ih =>
    by_cases he : e.1 == k
    · simp [mapUpdate, he]
    · simp [mapUpdate, he, ih]

theorem length_mapUpdate (m : JobMap) (k : String) (f : Job → Job) :
    (mapUpdate m k f).length = m.length := by
  induction m with
  | nil => rfl
  | cons e rest ih =>
    by_cases he : e.1 == k
    · simp [mapUpdate, he]
    · simp [mapUpdate, he, ih]

theorem mem_mapUpdate (m : JobMap) (k : String) (f : Job → Job)
    (e : String × Job) (he : e ∈ mapUpdate m k f) :
    e ∈ m ∨ ∃ e0, e0 ∈ m ∧ e0.1 = k ∧ e = (e0.1, f e0.2) := by
  induction m with
  | nil => cases he
  | cons e1 rest ih =>
    by_cases h1 : e1.1 == k
    · simp only [mapUpdate, h1, if_pos] at he
      rcases List.mem_cons.1 he with h | h
      · exact Or.inr ⟨e1, List.mem_cons_self _ _, by simpa using h1, h⟩
      · exact Or.inl (List.mem_cons_of_mem _ h)
    · simp only [mapUpdate, h1, if_neg, Bool.false_eq_true, not_false_eq_true] at he
      rcases List.mem_cons.1 he with h | h
      · exact Or.inl (h ▸ List.mem_cons_self _ _)
      · rcases ih h with h2 | ⟨e0, h0, hk, hv⟩
        · exact Or.inl (List.mem_cons_of_mem _ h2)
        · exact Or.inr ⟨e0, List.mem_cons_of_mem _ h0, hk, hv⟩

/-! ## C10 — progress mutation guard -/

/-- C10: `updateJobProgress(key, p)` leaves the whole store unchanged when no
job with that key exists or the job's status is not `PROCESSING` (so in
particular a terminal job's progress can never change through this
operation); otherwise it sets exactly that job's progress to
`min(100, max(0, p))` — a value always inside `[0, 100]` — bumps its
`updatedAt`, and leaves every other job and the processing set unchanged. -/
theorem updateJobProgress_guard (st : QueueState) (k : String) (p : Int) (now : Nat) :
    (mapGet st.queue k = none → updateJobProgress st k p now = st) ∧
    (∀ j, mapGet st.queue k = some j → j.status ≠ .processing →
      updateJobProgress st k p now = st) ∧
    (∀ j, mapGet st.queue k = some j → j.status = .processing →
      mapGet (updateJobProgress st k p now).queue k =
        some { j with progress := min 100 (max 0 p), updatedAt := now } ∧
      0 ≤ min 100 (max 0 p) ∧ min 100 (max 0 p) ≤ 100 ∧
      (∀ k2, ¬ k2 = k →
        mapGet (updateJobProgress st k p now).queue k2 = mapGet st.queue k2) ∧
      (updateJobProgress st k p now).processing = st.processing) := by
  refine ⟨fun h => ?_, fun j hj hs => ?_, fun j hj hs => ?_⟩
  · simp [updateJobProgress, h]
  · have hs' : (j.status == JobStatus.processing) = false := by
      cases hb : j.status == JobStatus.processing
      · rfl
      · exact absurd (by simpa using hb) hs
    simp [updateJobProgress, hj, hs']
  · refine ⟨?_, ?_, ?_, fun k2 h2 => ?_, ?_⟩
    · simp [updateJobProgress, hj, hs, mapGet_mapUpdate_self]
    · have h1 : (0 : Int) ≤ max 0 p := le_max_left 0 p
      exact le_min (by norm_num) h1
    · exact min_le_left _ _
    · simp [updateJobProgress, hj, hs, mapGet_mapUpdate_ne _ _ _ _ h2]
    · simp [updateJobProgress, hj, hs]

/-- Concrete processing job used by the C10 witness. -/
def jobC10 : Job :=
  { requestedKey := "k", type := .html, source := "<p>x</p>", priority := 5,
    status := .processing, progress := 10, createdAt := 1, updatedAt := 2 }

/-- Concrete terminal job used by the C10 witness. -/
def jobC10t : Job :=
  { requestedKey := "t", type := .html, source := "<p>x</p>", priority := 5,
    status := .completed, progress := 100, createdAt := 1, updatedAt := 2,
    filePath := some "out.pdf" }

/-- C10 witness: on a store holding a `PROCESSING` job "k" and a `COMPLETED`
job "t", `updateJobProgress` clamps an out-of-range 150 to 100 for "k", and is
the identity when directed at the terminal "t". -/
theorem updateJobProgress_guard_witness :
    mapGet (updateJobProgress ⟨[("k", jobC10), ("t", jobC10t)], ["k"]⟩ "k" 150 7).queue "k" =
      some { jobC10 with progress := min 100 (max 0 150), updatedAt := 7 } ∧
    updateJobProgress ⟨[("k", jobC10), ("t", jobC10t)], ["k"]⟩ "t" 55 7 =
      ⟨[("k", jobC10), ("t", jobC10t)], ["k"]⟩ :=
  ⟨((updateJobProgress_guard ⟨[("k", jobC10), ("t", jobC10t)], ["k"]⟩ "k" 150 7).2.2
      jobC10 (by decide) (by decide)).1,
    (updateJobProgress_guard ⟨[("k", jobC10), ("t", jobC10t)], ["k"]⟩ "t" 55 7).2.1
      jobC10t (by decide) (by decide)⟩

/-! ## C4 — submission failure precedence -/

/-- Concrete queued job with key "k" for the C4 counterexample. -/
def jobC4q : Job :=
  { requestedKey := "k", type := .html, source := "<p>x</p>", priority := 5,
    status := .queued, progress := 0, createdAt := 1, updatedAt := 1 }

/-- Concrete failed job with key "k" for the C4 counterexample. -/
def jobC4f : Job :=
  { requestedKey := "k", type := .html, source := "<p>x</p>", priority := 5,
    status := .failed, progress := 40, createdAt := 1, updatedAt := 2,
    error := some "boom" }

/-- Submission input with key "k" for the C4 counterexample. -/
def inpC4 : JobInput :=
  { requestedKey := "k", type := .html, source := "<p>x</p>", priority := 5 }

/-- C4 counterexample.  First conjunct: with the store at capacity
(`maxQueueSize = 1`) and a same-key entry in the non-terminal `QUEUED` status,
the submission fails with queue-full, not duplicate-key — the size cap is
checked first.  Second conjunct: an existing entry in the terminal `FAILED`
status does produce a duplicate-key failure (the duplicate check is
`queue.has(key)`, ignoring status), contrary to the claim. -/
theorem addJob_precedence_counterexample :
    addJob ⟨[("k", jobC4q)], []⟩ 1 inpC4 9 = .error .queueFull ∧
    addJob ⟨[("k", jobC4f)], []⟩ 10 inpC4 9 = .error .duplicateKey :=
  ⟨rfl, rfl⟩

/-- C4 amended: `addJob` checks the capacity cap first — when
`|store| ≥ maxQueueSize` the submission fails with queue-full even if an
entry with the same key exists; below the cap, an existing entry with the
same key in any status (non-terminal or terminal, `FAILED` and `CANCELLED`
included) fails with duplicate-key; otherwise the insertion succeeds. -/
theorem addJob_failure_precedence (st : QueueState) (maxSize : Nat)
    (inp : JobInput) (now : Nat) :
    (st.queue.length ≥ maxSize → addJob st maxSize inp now = .error .queueFull) ∧
    (st.queue.length < maxSize → ∀ j, mapGet st.queue inp.requestedKey = some j →
      addJob st maxSize inp now = .error .duplicateKey) ∧
    (st.queue.length < maxSize → mapGet st.queue inp.requestedKey = none →
      ∃ stj, addJob st maxSize inp now = .ok stj) := by
  refine ⟨fun h => ?_, fun h j hj => ?_, fun h hn => ?_⟩
  · simp [addJob, h]
  · simp [addJob, Nat.not_le.mpr h, hj]
  · unfold addJob
    rw [if_neg (by omega), if_neg (by simp [hn])]
    exact ⟨_, rfl⟩

/-- C4 witness: instantiating the amended theorem on the two concrete stores
of the counterexample and on an empty store. -/
theorem addJob_failure_precedence_witness :
    addJob ⟨[("k", jobC4q)], []⟩ 1 inpC4 9 = .error .queueFull ∧
    addJob ⟨[("k", jobC4f)], []⟩ 10 inpC4 9 = .error .duplicateKey ∧
    ∃ stj, addJob initState 10 inpC4 9 = .ok stj :=
  ⟨(addJob_failure_precedence ⟨[("k", jobC4q)], []⟩ 1 inpC4 9).1 (by decide),
    (addJob_failure_precedence ⟨[("k", jobC4f)], []⟩ 10 inpC4 9).2.1 (by decide)
      jobC4f (by decide),
    (addJob_failure_precedence initState 10 inpC4 9).2.2 (by decide) (by decide)⟩

/-! ## C8 — priority handling on insert -/

/-- C8 counterexample: through the `from-file` route — which parses the
`options` JSON without zod validation — a submission with priority 999 stores
a job whose priority is 999, far outside `[1, 10]`: no clamping happens.  The
inserted job does have status `QUEUED`, progress 0 and equal timestamps. -/
theorem priority_clamping_counterexample :
    mapGet (postFromFile initState 10 "k" "<p>x</p>" false (some 999) 3).1.queue "k" =
      some { requestedKey := "k", type := .file, source := "<p>x</p>",
             priority := 999, status := .queued, progress := 0,
             createdAt := 3, updatedAt := 3 } ∧
    ¬ ((999 : Int) ≤ 10) :=
  ⟨rfl, by decide⟩

/-- C8 amended: an inserted job always has status `QUEUED`, progress 0,
`createdAt = updatedAt = now`, and its priority stored verbatim — no clamping
exists.  A missing priority defaults to 5 (both the from-html and from-file
flows pass `priority ?? 5`).  The zod schema used by the JSON-body routes
accepts a supplied priority exactly when it lies in `[1, 10]` (out-of-range
values are rejected with a validation error, not clamped), while the
from-file route performs no such check, so a stored priority can lie outside
`[1, 10]`. -/
theorem priority_on_insert (st : QueueState) (maxSize : Nat) (inp : JobInput)
    (now : Nat) (p : Option Int) :
    (∀ st2 j, addJob st maxSize inp now = .ok (st2, j) →
      j = { requestedKey := inp.requestedKey, type := inp.type,
            source := inp.source, priority := inp.priority, status := .queued,
            progress := 0, createdAt := now, updatedAt := now }) ∧
    (validPriority p = true ↔ (∀ v, p = some v → 1 ≤ v ∧ v ≤ 10)) ∧
    (validPriority p = false →
      ∀ key html re, validKey key = true → html ≠ "" →
        postFromHtml st maxSize key html re p now = (st, .invalidRequest)) ∧
    (p.getD 5 = match p with | some v => v | none => 5) := by
  refine ⟨fun st2 j hj => ?_, ?_, fun hp key html re hk hh => ?_, ?_⟩
  · by_cases h1 : st.queue.length ≥ maxSize
    · simp [addJob, h1] at hj
    · by_cases h2 : (mapGet st.queue inp.requestedKey).isSome
      · simp [addJob, h1, h2] at hj
      · simp [addJob, h1, h2] at hj
        exact hj.2.symm
  · cases p with
    | none => simp [validPriority]
    | some v =>
      simp only [validPriority, Bool.and_eq_true, decide_eq_true_eq]
      constructor
      · rintro ⟨h1, h2⟩ w hw
        cases hw
        exact ⟨h1, h2⟩
      · exact fun h => h v rfl
  · simp [postFromHtml, hk, hp, hh]
  · cases p <;> rfl

/-! ## C5 — idempotent hit on COMPLETED -/

/-- C5: a second `from-html` submission with the same key and `reCreate`
false, made while the stored job is `COMPLETED` (with the file path the
worker recorded, which is always non-empty), returns the existing record
with that same `filePath` and leaves the store — hence the set of enqueued
jobs — completely unchanged.  The final conjunct closes the loop with the
first submission: when the worker completes a job it stores exactly
`status = COMPLETED`, the produced path, and `progress = 100`. -/
theorem idempotent_completed_hit (st : QueueState) (maxSize : Nat)
    (key html : String) (p : Option Int) (now : Nat) (j : Job) (fp : String)
    (hk : validKey key = true) (hp : validPriority p = true) (hh : html ≠ "")
    (hj : mapGet st.queue key = some j) (hc : j.status = .completed)
    (hf : j.filePath = some fp) (hne : fp ≠ "") :
    postFromHtml st maxSize key html false p now =
      (st, .existing
        { requestedKey := key, status := .completed, filePath := fp,
          createdAt := j.createdAt, updatedAt := j.updatedAt }) ∧
    (∀ st0 j0, mapGet st0.queue key = some j0 →
      mapGet (updateJobStatus st0 key .completed { filePath := some fp } now).queue key =
        some { j0 with status := .completed, updatedAt := now,
                       filePath := some fp, progress := 100 }) := by
  constructor
  · have hx : getExistingCompletedPdf st key =
        some { requestedKey := key, status := .completed, filePath := fp,
               createdAt := j.createdAt, updatedAt := j.updatedAt } := by
      simp [getExistingCompletedPdf, hj, hf, hc, hne]
    simp [postFromHtml, hk, hp, hh, hx]
  · intro st0 j0 hj0
    simp [updateJobStatus, hj0, mapGet_mapUpdate_self, strTruthy, hne]

/-- Concrete completed job for the C5 witness. -/
def jobC5 : Job :=
  { requestedKey := "x", type := .html, source := "<p>x</p>", priority := 5,
    status := .completed, progress := 100, createdAt := 1, updatedAt := 4,
    filePath := some "pdf-files/05-10-2025/x__14-30-45.pdf" }

/-- C5 witness: on a store holding the completed job "x", a repeat submission
returns the stored record and path and leaves the store unchanged. -/
theorem idempotent_completed_hit_witness :
    postFromHtml ⟨[("x", jobC5)], []⟩ 100 "x" "<p>x</p>" false none 9 =
      (⟨[("x", jobC5)], []⟩,
        .existing { requestedKey := "x", status := .completed,
                    filePath := "pdf-files/05-10-2025/x__14-30-45.pdf",
                    createdAt := 1, updatedAt := 4 }) :=
  (idempotent_completed_hit ⟨[("x", jobC5)], []⟩ 100 "x" "<p>x</p>" none 9 jobC5
    "pdf-files/05-10-2025/x__14-30-45.pdf" (by decide) (by decide) (by decide)
    (by decide) (by decide) (by decide) (by decide)).1

/-! ## C6 — recovery from snapshot -/

/-- Persisted queued job with non-zero progress, for the C6 counterexample. -/
def pjC6 : PersistedJob :=
  { requestedKey := "k", type := .html, source := "<p>x</p>", priority := 5,
    status := .queued, progress := 50, createdAt := 1, updatedAt := 2 }

/-- C6 counterexample: loading a valid snapshot holding a `QUEUED` job whose
persisted progress is 50 yields that job with progress 0 — the loader resets
the progress of every job whose resulting status is `queued`, not only of
jobs persisted as `PROCESSING`, so "QUEUED preserved verbatim" fails on the
progress field. -/
theorem loadFromFile_counterexample :
    pjC6.status = .queued ∧ pjC6.progress = 50 ∧
    mapGet (loadFromFile [pjC6]).1.queue "k" =
      some { requestedKey := "k", type := .html, source := "<p>x</p>",
             priority := 5, status := .queued, progress := 0,
             createdAt := 1, updatedAt := 2 } :=
  ⟨rfl, rfl, rfl⟩

/-- C6 amended: after loading a valid snapshot (duplicate-free keys), every
persisted job is present under its key; one persisted as `PROCESSING` comes
back `QUEUED` with progress 0; `COMPLETED`, `FAILED` and `CANCELLED` jobs
keep their status, progress, timestamps, filePath and error; a job persisted
as `QUEUED` keeps everything except its progress, which is also reset to 0;
and the scheduler is triggered after the load. -/
theorem loadFromFile_recovery (jobs : List PersistedJob)
    (hnd : (jobs.map (·.requestedKey)).Nodup) :
    (loadFromFile jobs).2 = true ∧
    ∀ p ∈ jobs,
      mapGet (loadFromFile jobs).1.queue p.requestedKey = some
        { requestedKey := p.requestedKey, type := p.type, source := p.source,
          priority := p.priority,
          status := if p.status = .processing then .queued else p.status,
          progress :=
            if p.status = .processing ∨ p.status = .queued then 0 else p.progress,
          createdAt := p.createdAt, updatedAt := p.updatedAt,
          filePath := p.filePath, error := p.error } := by
  refine ⟨rfl, ?_⟩
  have main : ∀ (l : List PersistedJob) (acc : QueueState),
      (l.map (·.requestedKey)).Nodup → ∀ p ∈ l,
      mapGet (l.foldl loadStep acc).queue p.requestedKey = some
        { requestedKey := p.requestedKey, type := p.type, source := p.source,
          priority := p.priority,
          status := if p.status = .processing then .queued else p.status,
          progress :=
            if p.status = .processing ∨ p.status = .queued then 0 else p.progress,
          createdAt := p.createdAt, updatedAt := p.updatedAt,
          filePath := p.filePath, error := p.error } := by
    have preserve : ∀ (l : List PersistedJob) (acc : QueueState) (k : String),
        (∀ q ∈ l, q.requestedKey ≠ k) →
        mapGet (l.foldl loadStep acc).queue k = mapGet acc.queue k := by
      intro l
      induction l with
      | nil => intro acc k _; rfl
      | cons q rest ih =>
        intro acc k hk
        have h1 : q.requestedKey ≠ k := hk q (List.mem_cons_self _ _)
        calc mapGet ((q :: rest).foldl loadStep acc).queue k
            = mapGet (rest.foldl loadStep (loadStep acc q)).queue k := rfl
          _ = mapGet (loadStep acc q).queue k :=
              ih _ k (fun r hr => hk r (List.mem_cons_of_mem _ hr))
          _ = mapGet acc.queue k := by
              simp only [loadStep]
              exact mapGet_mapSet_ne _ _ _ _ (fun h => h1 h.symm)
    intro l
    induction l with
    | nil => intro acc _ p hp; cases hp
    | cons q rest ih =>
      intro acc hnd2 p hp
      rcases List.mem_cons.1 hp with h | h
      · subst h
        have hnotin : ∀ r ∈ rest, r.requestedKey ≠ p.requestedKey := by
          intro r hr he
          have hmem : p.requestedKey ∈ rest.map (·.requestedKey) := by
            rw [← he]
            exact List.mem_map_of_mem (·.requestedKey) hr
          exact (List.nodup_cons.1 hnd2).1 hmem
        calc mapGet ((p :: rest).foldl loadStep acc).queue p.requestedKey
            = mapGet (rest.foldl loadStep (loadStep acc p)).queue p.requestedKey := rfl
          _ = mapGet (loadStep acc p).queue p.requestedKey := preserve _ _ _ hnotin
          _ = _ := by
              simp only [loadStep, mapGet_mapSet_self]
              congr 1
              by_cases hs : p.status = .processing
              · simp [hs]
              · have hb : (p.status == JobStatus.processing) = false := by
                  simpa using hs
                by_cases hq : p.status = .queued
                · simp [hs, hq, hb]
                · have hb2 : (p.status == JobStatus.queued) = false := by
                    simpa using hq
                  simp [hs, hq, hb, hb2]
      · exact ih (loadStep acc q) (List.nodup_cons.1 hnd2).2 p h
  exact main jobs initState hnd

/-- Three-status snapshot for the C6 witness: a `PROCESSING` job comes back
`QUEUED` with progress 0, a `COMPLETED` one is preserved verbatim, a `QUEUED`
one is preserved except for the progress reset. -/
def snapC6 : List PersistedJob :=
  [{ requestedKey := "a", type := .html, source := "<p>a</p>", priority := 5,
     status := .processing, progress := 60, createdAt := 1, updatedAt := 2 },
   { requestedKey := "b", type := .url, source := "https://example.com",
     priority := 7, status := .completed, progress := 100, createdAt := 1,
     updatedAt := 3, filePath := some "pdf-files/05-10-2025/b__14-30-45.pdf" },
   { requestedKey := "c", type := .html, source := "<p>c</p>", priority := 1,
     status := .queued, progress := 0, createdAt := 2, updatedAt := 2 }]

/-- C6 witness: the amended recovery theorem applied to the concrete
three-job snapshot, read off for the interrupted `PROCESSING` job. -/
theorem loadFromFile_recovery_witness :
    (loadFromFile snapC6).2 = true ∧
    mapGet (loadFromFile snapC6).1.queue "a" =
      some { requestedKey := "a", type := .html, source := "<p>a</p>",
             priority := 5, status := .queued, progress := 0,
             createdAt := 1, updatedAt := 2 } := by
  have h := loadFromFile_recovery snapC6 (by decide)
  refine ⟨h.1, ?_⟩
  have h2 := h.2 (snapC6.get ⟨0, by decide⟩) (by simp [snapC6])
  simpa [snapC6] using h2

/-- Submission input with an out-of-range priority for the C8 witness. -/
def inpC8 : JobInput :=
  { requestedKey := "k", type := .file, source := "<p>x</p>", priority := 999 }

/-- The job `addJob` inserts for `inpC8` at instant 3. -/
def jobC8 : Job :=
  { requestedKey := "k", type := .file, source := "<p>x</p>", priority := 999,
    status := .queued, progress := 0, createdAt := 3, updatedAt := 3 }

/-- C8 witness: the amended theorem instantiated on the empty store — the
insertion stores priority 999 verbatim, and the zod-validated from-html route
rejects the same priority as invalid. -/
theorem priority_on_insert_witness :
    jobC8 = { requestedKey := "k", type := .file, source := "<p>x</p>",
              priority := 999, status := .queued, progress := 0,
              createdAt := 3, updatedAt := 3 } ∧
    postFromHtml initState 10 "k" "<p>x</p>" false (some 999) 3 =
      (initState, .invalidRequest) :=
  ⟨(priority_on_insert initState 10 inpC8 3 (some 999)).1
      ⟨[("k", jobC8)], []⟩ jobC8 rfl,
    (priority_on_insert initState 10 inpC8 3 (some 999)).2.2.1 (by decide)
      "k" "<p>x</p>" false (by decide) (by decide)⟩

/-! ## C1 — terminal-status stability -/

/-- Concrete job in `PROCESSING` (already holding its slot) for the C1
counterexample. -/
def jobC1 : Job :=
  { requestedKey := "k", type := .html, source := "<p>x</p>", priority := 5,
    status := .processing, progress := 10, createdAt := 1, updatedAt := 2 }

/-- Concrete `CANCELLED` job for the C1 counterexample and witness. -/
def jobC1c : Job :=
  { requestedKey := "c", type := .html, source := "<p>x</p>", priority := 5,
    status := .cancelled, progress := 10, createdAt := 1, updatedAt := 2 }

/-- C1 counterexample.  First conjunct: a job cancelled while `PROCESSING`
(the external `cancelJob` lands between the worker's top-of-loop status read
and the pre-capture checkpoint, on the worker's final attempt) ends up
`FAILED` with error `Job was cancelled`: the checkpoint aborts by throwing,
the catch block of the last attempt records the failure, and the store writes
it over the terminal `CANCELLED` status.  Second conjunct: `updateJobStatus`
itself overwrites a terminal `CANCELLED` job with `FAILED` — the store has no
terminal-status guard. -/
theorem terminal_stability_counterexample :
    jobC1.status = .processing ∧
    (mapGet (processJob ⟨[("k", jobC1)], ["k"]⟩ "k"
        [{ cancelAt := some .beforeCheckpoint, gen := .error "net" }] 7).queue "k").map
      (fun j => (j.status, j.error)) = some (.failed, some "Job was cancelled") ∧
    (mapGet (updateJobStatus ⟨[("c", jobC1c)], []⟩ "c" .failed
        { error := some "boom" } 9).queue "c").map
      (fun j => (j.status, j.error)) = some (.failed, some "boom") :=
  ⟨rfl, rfl, rfl⟩

/-- C1 amended: terminal stability holds for every store operation except
`updateJobStatus`.  For a job in a terminal status: `cancelJob` never changes
its status or error, `markAsProcessing` and `updateJobProgress` leave the
whole store unchanged, removal stays available, and the worker returns
without touching the store whenever it observes the job `CANCELLED` at its
entry check or at the top of a retry iteration.  But `updateJobStatus`
overwrites the status of any existing job unconditionally; the worker issues
such a write when the pre-capture checkpoint detects the cancellation on the
final attempt (recording `FAILED`), or when the capture finishes after a
cancellation that arrived past the checkpoint (recording `COMPLETED`). -/
theorem terminal_stability (st : QueueState) (k : String) (now : Nat) (j : Job)
    (hj : mapGet st.queue k = some j) (ht : isTerminal j.status = true) :
    (∃ j2, mapGet ((cancelJob st k now).1).queue k = some j2 ∧
      j2.status = j.status ∧ j2.error = j.error) ∧
    markAsProcessing st k now = st ∧
    (∀ p, updateJobProgress st k p now = st) ∧
    (j.status = .cancelled → ∀ envs, processJob st k envs now = st) ∧
    (∀ s extra, ∃ j2,
      mapGet (updateJobStatus st k s extra now).queue k = some j2 ∧
      j2.status = s) := by
  have hterm : j.status = .completed ∨ j.status = .failed ∨ j.status = .cancelled := by
    simp only [isTerminal, Bool.or_eq_true, beq_iff_eq] at ht
    tauto
  refine ⟨?_, ?_, fun p => ?_, fun hc envs => ?_, fun s extra => ?_⟩
  · rcases hterm with h | h | h
    · exact ⟨j, by simp [cancelJob, hj, h], rfl, rfl⟩
    · exact ⟨j, by simp [cancelJob, hj, h], rfl, rfl⟩
    · refine ⟨{ j with status := .cancelled, updatedAt := now }, ?_, by simp [h], rfl⟩
      simp [cancelJob, hj, h, mapGet_mapUpdate_self]
  · have hne : (j.status == JobStatus.queued) = false := by
      rcases hterm with h | h | h <;> simp [h]
    simp [markAsProcessing, hj, hne]
  · have hne : (j.status == JobStatus.processing) = false := by
      rcases hterm with h | h | h <;> simp [h]
    simp [updateJobProgress, hj, hne]
  · simp [processJob, hj, hc]
  · by_cases hcf : (s == JobStatus.completed || s == JobStatus.failed) = true
    · simp only [updateJobStatus, hj, hcf, if_true]
      rw [mapGet_mapUpdate_self, hj]
      refine ⟨_, rfl, ?_⟩
      dsimp only
      by_cases h1 : strTruthy extra.filePath <;> by_cases h2 : strTruthy extra.error <;>
        by_cases h3 : s == JobStatus.completed <;> simp [h1, h2, h3]
    · simp only [updateJobStatus, hj, hcf, if_false, Bool.false_eq_true]
      rw [mapGet_mapUpdate_self, hj]
      refine ⟨_, rfl, ?_⟩
      dsimp only
      by_cases h1 : strTruthy extra.filePath <;> by_cases h2 : strTruthy extra.error <;>
        by_cases h3 : s == JobStatus.completed <;> simp [h1, h2, h3]

/-- C1 witness: the amended theorem applied to a store holding the terminal
`CANCELLED` job "c": the cancel / mark / progress operations preserve it, the
worker leaves it alone, and `updateJobStatus` can still overwrite it. -/
theorem terminal_stability_witness :
    markAsProcessing ⟨[("c", jobC1c)], []⟩ "c" 9 = ⟨[("c", jobC1c)], []⟩ ∧
    updateJobProgress ⟨[("c", jobC1c)], []⟩ "c" 80 9 = ⟨[("c", jobC1c)], []⟩ ∧
    processJob ⟨[("c", jobC1c)], []⟩ "c" [{ cancelAt := none, gen := .ok "p.pdf" }] 9 =
      ⟨[("c", jobC1c)], []⟩ ∧
    (∃ j2, mapGet (updateJobStatus ⟨[("c", jobC1c)], []⟩ "c" .completed
        { filePath := some "p.pdf" } 9).queue "c" = some j2 ∧
      j2.status = .completed) := by
  have h := terminal_stability ⟨[("c", jobC1c)], []⟩ "c" 9 jobC1c (by decide) (by decide)
  exact ⟨h.2.1, h.2.2.1 80, h.2.2.2.1 (by decide) _, h.2.2.2.2 .completed _⟩

/-! ## C2 — concurrency-ceiling accounting

Further `Map`/`Set` lemmas, then a reachability relation over the operations
the service performs on the store, an invariant, and the accounting facts. -/

theorem mapGet_eq_none_iff (m : JobMap) (k : String) :
    mapGet m k = none ↔ k ∉ m.map (·.1) := by
  induction m with
  | nil => simp [mapGet]
  | cons e rest ih =>
    by_cases he : e.1 == k
    · have he' : e.1 = k := by simpa using he
      simp [mapGet, he, he']
    · have he' : ¬ e.1 = k := by simpa using he
      simp only [mapGet, he, Bool.false_eq_true, if_false, List.map_cons,
        List.mem_cons, not_or]
      rw [ih]
      constructor
      · exact fun h => ⟨fun h1 => he' h1.symm, h⟩
      · exact fun h => h.2

theorem mapSet_eq_append (m : JobMap) (k : String) (v : Job)
    (h : mapGet m k = none) : mapSet m k v = m ++ [(k, v)] := by
  induction m with
  | nil => rfl
  | cons e rest ih =>
    by_cases he : e.1 == k
    · simp [mapGet, he] at h
    · simp only [mapGet, he, Bool.false_eq_true, if_false] at h
      simp [mapSet, he, ih h]

theorem mem_mapSet (m : JobMap) (k : String) (v : Job) (e : String × Job)
    (he : e ∈ mapSet m k v) : e ∈ m ∨ e = (k, v) := by
  induction m with
  | nil => simp [mapSet] at he; exact Or.inr he
  | cons e1 rest ih =>
    by_cases h1 : e1.1 == k
    · simp only [mapSet, h1, if_pos] at he
      rcases List.mem_cons.1 he with h | h
      · exact Or.inr h
      · exact Or.inl (List.mem_cons_of_mem _ h)
    · simp only [mapSet, h1, Bool.false_eq_true, if_false] at he
      rcases List.mem_cons.1 he with h | h
      · exact Or.inl (h ▸ List.mem_cons_self _ _)
      · rcases ih h with h2 | h2
        · exact Or.inl (List.mem_cons_of_mem _ h2)
        · exact Or.inr h2

theorem keys_mapSet_of_present (m : JobMap) (k : String) (v : Job)
    (h : ¬ mapGet m k = none) : (mapSet m k v).map (·.1) = m.map (·.1) := by
  induction m with
  | nil => simp [mapGet] at h
  | cons e rest ih =>
    by_cases he : e.1 == k
    · have he' : e.1 = k := by simpa using he
      simp [mapSet, he, he']
    · simp only [mapGet, he, Bool.false_eq_true, if_false] at h
      simp [mapSet, he, ih h]

theorem nodup_keys_mapSet (m : JobMap) (k : String) (v : Job)
    (hnd : (m.map (·.1)).Nodup) : ((mapSet m k v).map (·.1)).Nodup := by
  by_cases h : mapGet m k = none
  · rw [mapSet_eq_append m k v h]
    have hk : k ∉ m.map (·.1) := (mapGet_eq_none_iff m k).1 h
    simp only [List.map_append, List.map_cons, List.map_nil]
    rw [List.nodup_append]
    refine ⟨hnd, List.nodup_singleton k, ?_⟩
    intro a ha hb
    simp only [List.mem_singleton] at hb
    exact hk (hb ▸ ha)
  · rw [keys_mapSet_of_present m k v h]
    exact hnd

theorem mem_mapUpdate_nodup (m : JobMap) (k : String) (f : Job → Job)
    (hnd : (m.map (·.1)).Nodup) (e : String × Job) (he : e ∈ mapUpdate m k f) :
    (e ∈ m ∧ ¬ e.1 = k) ∨ ∃ e0, e0 ∈ m ∧ e0.1 = k ∧ e = (e0.1, f e0.2) := by
  induction m with
  | nil => cases he
  | cons e1 rest ih =>
    simp only [List.map_cons, List.nodup_cons] at hnd
    by_cases h1 : e1.1 == k
    · have h1' : e1.1 = k := by simpa using h1
      simp only [mapUpdate, h1, if_pos] at he
      rcases List.mem_cons.1 he with h | h
      · exact Or.inr ⟨e1, List.mem_cons_self _ _, h1', h⟩
      · left
        refine ⟨List.mem_cons_of_mem _ h, fun hk => ?_⟩
        exact hnd.1 (h1' ▸ hk ▸ List.mem_map_of_mem (·.1) h)
    · have h1' : ¬ e1.1 = k := by simpa using h1
      simp only [mapUpdate, h1, Bool.false_eq_true, if_false] at he
      rcases List.mem_cons.1 he with h | h
      · exact Or.inl ⟨h ▸ List.mem_cons_self _ _, h ▸ h1'⟩
      · rcases ih hnd.2 h with ⟨h2, h3⟩ | ⟨e0, h0, hk, hv⟩
        · exact Or.inl ⟨List.mem_cons_of_mem _ h2, h3⟩
        · exact Or.inr ⟨e0, List.mem_cons_of_mem _ h0, hk, hv⟩

theorem mapDelete_sublist (m : JobMap) (k : String) :
    (mapDelete m k).Sublist m := by
  induction m with
  | nil => exact List.Sublist.refl _
  | cons e rest ih =>
    by_cases he : e.1 == k
    · simp only [mapDelete, he, if_pos]
      exact ih.cons e
    · simp only [mapDelete, he, Bool.false_eq_true, if_false]
      exact ih.cons₂ e

theorem mem_setAdd_self (s : List String) (k : String) : k ∈ setAdd s k := by
  unfold setAdd
  split
  · next h => exact List.mem_of_elem_eq_true h
  · exact List.mem_append_right _ (List.mem_singleton_self k)

theorem mem_setAdd_of_mem (s : List String) (k x : String) (hx : x ∈ s) :
    x ∈ setAdd s k := by
  unfold setAdd
  split
  · exact hx
  · exact List.mem_append_left _ hx

theorem mem_setDelete_of_ne (s : List String) (k x : String) (hx : x ∈ s)
    (hne : ¬ x = k) : x ∈ setDelete s k := by
  simp [setDelete, List.mem_filter, hx, hne]

/-- States of the store reachable through the operations the service invokes:
startup with an empty store or a snapshot load, submissions (`addJob`),
cancellations, removals, progress reports, the worker's terminal reports
(`updateJobStatus` is only ever called with `completed` or `failed` — see
pdf-generator.ts lines 93 and 110 and screenshot-generator.ts), slot
reservation (`markAsProcessing`), and cleanup. -/
inductive Reachable : QueueState → Prop
  | init : Reachable initState
  | load (jobs : List PersistedJob) : Reachable (loadFromFile jobs).1
  | add (st : QueueState) (maxSize : Nat) (inp : JobInput) (now : Nat)
      (st2 : QueueState) (j : Job) (h : Reachable st)
      (ha : addJob st maxSize inp now = .ok (st2, j)) : Reachable st2
  | cancel (st : QueueState) (k : String) (now : Nat) (h : Reachable st) :
      Reachable (cancelJob st k now).1
  | remove (st : QueueState) (k : String) (h : Reachable st) :
      Reachable (removeJob st k).1
  | progress (st : QueueState) (k : String) (p : Int) (now : Nat)
      (h : Reachable st) : Reachable (updateJobProgress st k p now)
  | complete (st : QueueState) (k : String) (extra : StatusExtra) (now : Nat)
      (h : Reachable st) : Reachable (updateJobStatus st k .completed extra now)
  | fail (st : QueueState) (k : String) (extra : StatusExtra) (now : Nat)
      (h : Reachable st) : Reachable (updateJobStatus st k .failed extra now)
  | mark (st : QueueState) (k : String) (now : Nat) (h : Reachable st) :
      Reachable (markAsProcessing st k now)
  | cleanup (st : QueueState) (maxAgeMs now : Int) (h : Reachable st) :
      Reachable (cleanupOldJobs st maxAgeMs now).1

/-- Store invariant: keys are unique, and every job whose status is
`PROCESSING` has its key in the `processing` set (the converse fails: a key
cancelled during processing stays in the set). -/
def Inv (st : QueueState) : Prop :=
  (st.queue.map (·.1)).Nodup ∧
  ∀ e ∈ st.queue, e.2.status = .processing → e.1 ∈ st.processing

/-- The number of jobs whose status is `PROCESSING` — what the claim says the
scheduler counts. -/
def countProcessing (st : QueueState) : Nat :=
  ((st.queue.map (·.2)).filter (fun j => j.status == .processing)).length

theorem reachable_inv (st : QueueState) (h : Reachable st) : Inv st := by
  induction h with
  | init => exact ⟨List.nodup_nil, by intro e he; cases he⟩
  | load jobs =>
    constructor
    · have main : ∀ (l : List PersistedJob) (acc : QueueState),
          ((acc.queue.map (·.1)).Nodup) →
          (((l.foldl loadStep acc).queue.map (·.1)).Nodup) := by
        intro l
        induction l with
        | nil => intro acc h; exact h
        | cons q rest ih =>
          intro acc h
          exact ih (loadStep acc q) (nodup_keys_mapSet _ _ _ h)
      exact main jobs initState List.nodup_nil
    · intro e he hp
      exfalso
      have main : ∀ (l : List PersistedJob) (acc : QueueState),
          (∀ e2 ∈ acc.queue, e2.2.status ≠ .processing) →
          ∀ e2 ∈ (l.foldl loadStep acc).queue, e2.2.status ≠ .processing := by
        intro l
        induction l with
        | nil => intro acc h; exact h
        | cons q rest ih =>
          intro acc h
          refine ih (loadStep acc q) ?_
          intro e2 he2
          rcases mem_mapSet _ _ _ _ he2 with h2 | h2
          · exact h e2 h2
          · rw [h2]
            dsimp only
            by_cases hq : q.status = JobStatus.processing
            · simp [hq]
            · simp [hq]
      exact main jobs initState (by intro e2 he2; cases he2) e he hp
  | add st maxSize inp now st2 j hr ha ih =>
    by_cases h1 : st.queue.length ≥ maxSize
    · simp [addJob, h1] at ha
    · by_cases h2 : (mapGet st.queue inp.requestedKey).isSome
      · simp [addJob, h1, h2] at ha
      · have hnone : mapGet st.queue inp.requestedKey = none := by
          cases hm : mapGet st.queue inp.requestedKey
          · rfl
          · rw [hm] at h2; simp at h2
        simp only [addJob, h1, h2, Bool.false_eq_true, if_false, ite_false] at ha
        have hq : st2.queue = mapSet st.queue inp.requestedKey
            { requestedKey := inp.requestedKey, type := inp.type,
              source := inp.source, priority := inp.priority, status := .queued,
              progress := 0, createdAt := now, updatedAt := now } ∧
            st2.processing = st.processing := by
          cases ha
          exact ⟨rfl, rfl⟩
        refine ⟨hq.1 ▸ nodup_keys_mapSet _ _ _ ih.1, ?_⟩
        intro e he hp
        rw [hq.1] at he
        rw [hq.2]
        rcases mem_mapSet _ _ _ _ he with h3 | h3
        · exact ih.2 e h3 hp
        · rw [h3] at hp
          cases hp
  | cancel st k now hr ih =>
    unfold cancelJob
    cases hm : mapGet st.queue k with
    | none => exact ih
    | some job =>
      by_cases hs : (job.status == JobStatus.completed || job.status == JobStatus.failed) = true
      · simp only [hm, hs, if_pos]
        exact ih
      · simp only [hm, hs, Bool.false_eq_true, if_false]
        refine ⟨by simpa [keys_mapUpdate] using ih.1, ?_⟩
        intro e he hp
        rcases mem_mapUpdate _ _ _ _ he with h2 | ⟨e0, h0, hk, hv⟩
        · exact ih.2 e h2 hp
        · rw [hv] at hp
          cases hp
  | remove st k hr ih =>
    unfold removeJob
    cases hm : mapGet st.queue k with
    | none => exact ih
    | some job =>
      by_cases hs : (job.status == JobStatus.processing) = true
      · simp only [hm, hs, if_pos]
        exact ih
      · simp only [hm, hs, Bool.false_eq_true, if_false]
        refine ⟨((mapDelete_sublist st.queue k).map (·.1)).nodup ih.1, ?_⟩
        intro e he hp
        exact ih.2 e ((mapDelete_sublist st.queue k).subset he) hp
  | progress st k p now hr ih =>
    unfold updateJobProgress
    cases hm : mapGet st.queue k with
    | none => exact ih
    | some job =>
      by_cases hs : (job.status == JobStatus.processing) = true
      · simp only [hm, hs, if_pos]
        refine ⟨by simpa [keys_mapUpdate] using ih.1, ?_⟩
        intro e he hp
        rcases mem_mapUpdate _ _ _ _ he with h2 | ⟨e0, h0, hk, hv⟩
        · exact ih.2 e h2 hp
        · rw [hv] at hp
          rw [hv]
          exact ih.2 e0 h0 hp
      · simp only [hm, hs, Bool.false_eq_true, if_false]
        exact ih
  | complete st k extra now hr ih =>
    unfold updateJobStatus
    cases hm : mapGet st.queue k with
    | none => exact ih
    | some job =>
      simp only [hm]
      refine ⟨by simpa [keys_mapUpdate] using ih.1, ?_⟩
      intro e he hp
      rcases mem_mapUpdate_nodup _ _ _ ih.1 e he with ⟨h2, h3⟩ | ⟨e0, h0, hk, hv⟩
      · exact mem_setDelete_of_ne _ _ _ (ih.2 e h2 hp) h3
      · rw [hv] at hp
        dsimp only at hp
        by_cases h1 : strTruthy extra.filePath = true <;>
          by_cases h2 : strTruthy extra.error = true <;>
          simp [h1, h2] at hp
  | fail st k extra now hr ih =>
    unfold updateJobStatus
    cases hm : mapGet st.queue k with
    | none => exact ih
    | some job =>
      simp only [hm]
      refine ⟨by simpa [keys_mapUpdate] using ih.1, ?_⟩
      intro e he hp
      rcases mem_mapUpdate_nodup _ _ _ ih.1 e he with ⟨h2, h3⟩ | ⟨e0, h0, hk, hv⟩
      · exact mem_setDelete_of_ne _ _ _ (ih.2 e h2 hp) h3
      · rw [hv] at hp
        dsimp only at hp
        by_cases h1 : strTruthy extra.filePath = true <;>
          by_cases h2 : strTruthy extra.error = true <;>
          simp [h1, h2] at hp
  | mark st k now hr ih =>
    unfold markAsProcessing
    cases hm : mapGet st.queue k with
    | none => exact ih
    | some job =>
      by_cases hs : (job.status == JobStatus.queued) = true
      · simp only [hm, hs, if_pos]
        refine ⟨by simpa [keys_mapUpdate] using ih.1, ?_⟩
        intro e he hp
        rcases mem_mapUpdate _ _ _ _ he with h2 | ⟨e0, h0, hk, hv⟩
        · exact mem_setAdd_of_mem _ _ _ (ih.2 e h2 hp)
        · rw [hv, hk]
          exact mem_setAdd_self _ _
      · simp only [hm, hs, Bool.false_eq_true, if_false]
        exact ih
  | cleanup st maxAgeMs now hr ih =>
    unfold cleanupOldJobs
    refine ⟨((List.filter_sublist st.queue).map (·.1)).nodup ih.1, ?_⟩
    intro e he hp
    exact ih.2 e ((List.filter_sublist st.queue).subset he) hp

/-- C2 amended: in every reachable state, the count the scheduler uses for
the ceiling — `processing.size` — is an over-approximation: it is at least
the number of jobs whose status is `PROCESSING` (every `PROCESSING` job holds
a slot), so `getNextJob` does return none whenever the `PROCESSING` count is
at least `maxConcurrent`.  But the set equals the jobs marked processing and
not yet reported `completed`/`failed`: a job cancelled while processing never
releases its slot, so the converse direction of the claim — a job is returned
whenever fewer than `maxConcurrent` jobs are `PROCESSING` and one is
`QUEUED` — fails (see the counterexample). -/
theorem concurrency_accounting (st : QueueState) (h : Reachable st)
    (maxConcurrent : Nat) :
    countProcessing st ≤ st.processing.length ∧
    (maxConcurrent ≤ countProcessing st → getNextJob st maxConcurrent = none) := by
  obtain ⟨hnd, hinv⟩ := reachable_inv st h
  have hcount : countProcessing st ≤ st.processing.length := by
    have hsub : (st.queue.filter (fun e => e.2.status == .processing)).Sublist st.queue :=
      List.filter_sublist st.queue
    have h1 : countProcessing st =
        ((st.queue.filter (fun e => e.2.status == .processing)).map (·.1)).length := by
      unfold countProcessing
      rw [List.filter_map, List.length_map, List.length_map]
      rfl
    have h2 : ((st.queue.filter (fun e => e.2.status == .processing)).map (·.1)).Nodup :=
      (hsub.map (·.1)).nodup hnd
    have h3 : ∀ x ∈ (st.queue.filter (fun e => e.2.status == .processing)).map (·.1),
        x ∈ st.processing := by
      intro x hx
      rcases List.mem_map.1 hx with ⟨e, he, rfl⟩
      have hm := List.mem_filter.1 he
      exact hinv e hm.1 (by simpa using hm.2)
    rw [h1]
    exact (h2.subperm h3).length_le
  refine ⟨hcount, fun hge => ?_⟩
  unfold getNextJob
  rw [if_pos (le_trans hge hcount)]

/-- Queued job "a" (first submission) for the C2 counterexample. -/
def jobC2a : Job :=
  { requestedKey := "a", type := .html, source := "<p>x</p>", priority := 5,
    status := .queued, progress := 0, createdAt := 1, updatedAt := 1 }

/-- Queued job "b" (second submission) for the C2 counterexample. -/
def jobC2b : Job :=
  { requestedKey := "b", type := .html, source := "<p>x</p>", priority := 5,
    status := .queued, progress := 0, createdAt := 2, updatedAt := 2 }

/-- Submission input "a" for the C2 counterexample. -/
def inpC2a : JobInput :=
  { requestedKey := "a", type := .html, source := "<p>x</p>", priority := 5 }

/-- Submission input "b" for the C2 counterexample. -/
def inpC2b : JobInput :=
  { requestedKey := "b", type := .html, source := "<p>x</p>", priority := 5 }

/-- Store after submitting "a". -/
def stC2A : QueueState := ⟨[("a", jobC2a)], []⟩

/-- Store after submitting "a" and "b". -/
def stC2B : QueueState := ⟨[("a", jobC2a), ("b", jobC2b)], []⟩

/-- Store after "a" is marked processing. -/
def stC2M : QueueState :=
  ⟨[("a", { jobC2a with status := .processing, updatedAt := 3 }), ("b", jobC2b)], ["a"]⟩

/-- Store after "a" is cancelled while processing: its key is still in the
`processing` set. -/
def stC2 : QueueState :=
  ⟨[("a", { jobC2a with status := .cancelled, updatedAt := 4 }), ("b", jobC2b)], ["a"]⟩

/-- C2 counterexample: submit "a" and "b", mark "a" processing, cancel "a".
In the resulting state no job at all has status `PROCESSING` (so fewer than
`maxConcurrent = 1` are processing) and "b" is `QUEUED`, yet `getNextJob`
returns none: the scheduler gates on `processing.size`, which still counts
the cancelled "a" — the slot of a job cancelled during processing is never
released, and the count differs from the number of `PROCESSING` jobs. -/
theorem concurrency_counterexample :
    addJob initState 10 inpC2a 1 = .ok (stC2A, jobC2a) ∧
    addJob stC2A 10 inpC2b 2 = .ok (stC2B, jobC2b) ∧
    markAsProcessing stC2B "a" 3 = stC2M ∧
    cancelJob stC2M "a" 4 = (stC2, true) ∧
    countProcessing stC2 = 0 ∧
    (mapGet stC2.queue "b").map Job.status = some .queued ∧
    stC2.processing.length = 1 ∧
    getNextJob stC2 1 = none :=
  ⟨rfl, rfl, rfl, rfl, rfl, rfl, rfl, rfl⟩

/-- C2 witness: the amended theorem applied to the concrete reachable state
of the counterexample. -/
theorem concurrency_accounting_witness :
    countProcessing stC2 ≤ stC2.processing.length ∧
    (1 ≤ countProcessing stC2 → getNextJob stC2 1 = none) := by
  have h1 : Reachable stC2A :=
    Reachable.add initState 10 inpC2a 1 stC2A jobC2a Reachable.init rfl
  have h2 : Reachable stC2B :=
    Reachable.add stC2A 10 inpC2b 2 stC2B jobC2b h1 rfl
  have h3 : Reachable stC2M := by
    have h := Reachable.mark stC2B "a" 3 h2
    rwa [show markAsProcessing stC2B "a" 3 = stC2M from rfl] at h
  have h4 : Reachable stC2 := by
    have h := Reachable.cancel stC2M "a" 4 h3
    rwa [show (cancelJob stC2M "a" 4).1 = stC2 from rfl] at h
  exact concurrency_accounting stC2 h4 1

/-! ## C3 — selection order -/

theorem jobLE_facts (a b : Job) (h : jobLE a b = true) :
    (b.priority = a.priority ∧ a.createdAt ≤ b.createdAt) ∨
    (¬ b.priority = a.priority ∧ b.priority ≤ a.priority) := by
  by_cases hab : b.priority = a.priority
  · exact Or.inl ⟨hab, by simpa [jobLE, hab] using h⟩
  · exact Or.inr ⟨hab, by simpa [jobLE, bne_iff_ne, hab] using h⟩

theorem jobLE_trans (a b c : Job) (h1 : jobLE a b = true) (h2 : jobLE b c = true) :
    jobLE a c = true := by
  have fact1 := jobLE_facts a b h1
  have fact2 := jobLE_facts b c h2
  by_cases hac : c.priority = a.priority
  · have hgoal : a.createdAt ≤ c.createdAt := by
      rcases fact1 with ⟨e1, f1⟩ | ⟨e1, f1⟩ <;> rcases fact2 with ⟨e2, f2⟩ | ⟨e2, f2⟩ <;>
        omega
    simp [jobLE, hac, hgoal]
  · have hgoal : c.priority ≤ a.priority := by
      rcases fact1 with ⟨e1, f1⟩ | ⟨e1, f1⟩ <;> rcases fact2 with ⟨e2, f2⟩ | ⟨e2, f2⟩ <;>
        omega
    simp [jobLE, bne_iff_ne, hac, hgoal]

theorem jobLE_total (a b : Job) : jobLE a b = true ∨ jobLE b a = true := by
  by_cases hab : b.priority = a.priority
  · by_cases h : a.createdAt ≤ b.createdAt
    · exact Or.inl (by simp [jobLE, hab, h])
    · exact Or.inr (by simp [jobLE, hab]; omega)
  · rcases le_total b.priority a.priority with h | h
    · exact Or.inl (by simp [jobLE, bne_iff_ne, hab, h])
    · refine Or.inr ?_
      have hab2 : ¬ a.priority = b.priority := fun he => hab he.symm
      simp [jobLE, bne_iff_ne, hab2, h]

theorem jobLE_not_beats (a b : Job) (h : jobLE a b = true) :
    ¬ (a.priority < b.priority ∨
        (b.priority = a.priority ∧ b.createdAt < a.createdAt)) := by
  have := jobLE_facts a b h
  rintro (h3 | ⟨h3, h4⟩) <;> rcases this with ⟨e1, f1⟩ | ⟨e1, f1⟩ <;> omega

/-- C3 amended: whenever the ceiling permits (`processing.size <
maxConcurrent`) and some job is `QUEUED`, `getNextJob` returns a `QUEUED` job
from the store that is maximal under the implemented order — higher priority
first, then earlier `createdAt`; the comparator has no key tiebreak, so jobs
equal in both are returned in map insertion order (the sort is stable), not
by lexicographic key (see the counterexample). -/
theorem selection_order (st : QueueState) (maxConcurrent : Nat)
    (hcap : st.processing.length < maxConcurrent)
    (j0 : Job) (hj0 : j0 ∈ st.queue.map (·.2)) (hq0 : j0.status = .queued) :
    ∃ j, getNextJob st maxConcurrent = some j ∧ j.status = .queued ∧
      j ∈ st.queue.map (·.2) ∧
      ∀ j2 ∈ st.queue.map (·.2), j2.status = .queued →
        ¬ (j.priority < j2.priority ∨
           (j2.priority = j.priority ∧ j2.createdAt < j.createdAt)) := by
  have hgate : ¬ st.processing.length ≥ maxConcurrent := Nat.not_le.mpr hcap
  set l := (st.queue.map (·.2)).filter (fun j => j.status == .queued) with hl
  have hmem0 : j0 ∈ l := List.mem_filter.2 ⟨hj0, by simpa using hq0⟩
  have hperm : (l.mergeSort jobLE).Perm l := List.mergeSort_perm l jobLE
  have hsorted : (l.mergeSort jobLE).Pairwise (fun a b => jobLE a b = true) :=
    List.sorted_mergeSort jobLE_trans
      (fun a b => by rcases jobLE_total a b with h | h <;> simp [h]) l
  cases hms : l.mergeSort jobLE with
  | nil =>
    rw [hms] at hperm
    exact absurd (hperm.symm.mem_iff.1 hmem0) (List.not_mem_nil j0)
  | cons j t =>
    rw [hms] at hperm hsorted
    have hjl : j ∈ l := hperm.mem_iff.1 (List.mem_cons_self j t)
    have hjq : j.status = .queued := by
      have := (List.mem_filter.1 hjl).2
      simpa using this
    refine ⟨j, ?_, hjq, (List.mem_filter.1 hjl).1, ?_⟩
    · unfold getNextJob
      rw [if_neg hgate, ← hl, hms]
      rfl
    · intro j2 hj2 hq2
      have hj2l : j2 ∈ l := List.mem_filter.2 ⟨hj2, by simpa using hq2⟩
      rcases List.mem_cons.1 (hperm.symm.mem_iff.1 hj2l) with h | h
      · rw [h]
        rintro (h1 | ⟨h1, h2⟩) <;> omega
      · exact jobLE_not_beats j j2 (List.rel_of_pairwise_cons hsorted h)

/-- Queued job with the lexicographically smaller key "a" but inserted
second, for the C3 counterexample. -/
def jobC3a : Job :=
  { requestedKey := "a", type := .html, source := "<p>x</p>", priority := 5,
    status := .queued, progress := 0, createdAt := 1, updatedAt := 1 }

/-- Queued job with key "b", inserted first, for the C3 counterexample. -/
def jobC3b : Job :=
  { requestedKey := "b", type := .html, source := "<p>x</p>", priority := 5,
    status := .queued, progress := 0, createdAt := 1, updatedAt := 1 }

unseal List.merge List.mergeSort in
/-- C3 counterexample: two `QUEUED` jobs with equal priority and equal
`createdAt`, the job with key "b" inserted before the job with key "a".  The
claim says the lexicographically smaller key "a" is selected; the comparator
has no key tiebreak and the stable sort keeps insertion order, so "b" is
selected. -/
theorem selection_order_counterexample :
    jobC3a.priority = jobC3b.priority ∧ jobC3a.createdAt = jobC3b.createdAt ∧
    jobC3a.status = .queued ∧ jobC3b.status = .queued ∧
    jobC3a.requestedKey < jobC3b.requestedKey ∧
    getNextJob ⟨[("b", jobC3b), ("a", jobC3a)], []⟩ 3 = some jobC3b :=
  ⟨rfl, rfl, rfl, rfl, by rw [String.lt_iff_toList_lt]; decide, rfl⟩

/-- C3 witness: the amended theorem applied to the concrete two-job store of
the counterexample. -/
theorem selection_order_witness :
    ∃ j, getNextJob ⟨[("b", jobC3b), ("a", jobC3a)], []⟩ 3 = some j ∧
      j.status = .queued ∧
      j ∈ (QueueState.mk [("b", jobC3b), ("a", jobC3a)] []).queue.map (·.2) ∧
      ∀ j2 ∈ (QueueState.mk [("b", jobC3b), ("a", jobC3a)] []).queue.map (·.2),
        j2.status = .queued →
        ¬ (j.priority < j2.priority ∨
           (j2.priority = j.priority ∧ j2.createdAt < j.createdAt)) :=
  selection_order ⟨[("b", jobC3b), ("a", jobC3a)], []⟩ 3 (by decide)
    jobC3a (by simp [jobC3a]) (by decide)

/-! ## C7 — namer round-trip: decimal printer lemmas -/

theorem digitChar_toNat (d : Nat) (h : d ≤ 9) : (digitChar d).toNat = 48 + d := by
  interval_cases d <;> rfl

theorem digitChar_isDigit (d : Nat) (h : d ≤ 9) : isDigitChar (digitChar d) = true := by
  simp only [isDigitChar, digitChar_toNat d h, Bool.and_eq_true, decide_eq_true_eq]
  omega

theorem decimalAux_fuel_mono :
    ∀ (f1 n : Nat), n < f1 → ∀ f2, f1 ≤ f2 → decimalAux f2 n = decimalAux f1 n := by
  intro f1
  induction f1 with
  | zero => intro n hn; omega
  | succ m ih =>
    intro n hn f2 hf2
    match f2, hf2 with
    | k + 1, hf2 =>
      show decimalAux (k + 1) n = decimalAux (m + 1) n
      by_cases h10 : n < 10
      · simp [decimalAux, h10]
      · simp only [decimalAux, h10, if_false]
        congr 1
        have hd : n / 10 < m := by omega
        calc decimalAux k (n / 10) = decimalAux m (n / 10) :=
              ih (n / 10) hd k (by omega)
          _ = decimalAux m (n / 10) := rfl

/-- The character list of `natToString n`. -/
def natChars (n : Nat) : List Char := decimalAux (n + 1) n

theorem natToString_data (n : Nat) : (natToString n).data = natChars n := rfl

theorem natChars_decomp (n : Nat) (h : 10 ≤ n) :
    natChars n = natChars (n / 10) ++ [digitChar (n % 10)] := by
  show decimalAux (n + 1) n = _
  have h1 : ¬ n < 10 := by omega
  simp only [decimalAux, h1, if_false]
  congr 1
  exact decimalAux_fuel_mono (n / 10 + 1) (n / 10) (by omega) n (by omega)

theorem natChars_lt10 (n : Nat) (h : n < 10) : natChars n = [digitChar n] := by
  show decimalAux (n + 1) n = _
  simp [decimalAux, h]

theorem natChars_spec (n : Nat) :
    (natChars n).all isDigitChar = true ∧ digitsVal (natChars n) = n ∧
      natChars n ≠ [] := by
  induction n using Nat.strong_induction_on with
  | _ n ih =>
    by_cases h : n < 10
    · rw [natChars_lt10 n h]
      refine ⟨by simp [digitChar_isDigit n (by omega)], ?_, by simp⟩
      simp [digitsVal, digitChar_toNat n (by omega)]
    · rw [natChars_decomp n (by omega)]
      obtain ⟨ha, hv, hne⟩ := ih (n / 10) (by omega)
      refine ⟨?_, ?_, by simp⟩
      · simp only [List.all_append, ha, Bool.true_and, List.all_cons, List.all_nil,
          Bool.and_true]
        exact digitChar_isDigit (n % 10) (by omega)
      · simp only [digitsVal, List.foldl_append] at *
        simp only [List.foldl_cons, List.foldl_nil, hv,
          digitChar_toNat (n % 10) (by omega)]
        omega

theorem natChars_two (n : Nat) (h10 : 10 ≤ n) (h : n < 100) :
    natChars n = [digitChar (n / 10), digitChar (n % 10)] := by
  rw [natChars_decomp n h10, natChars_lt10 (n / 10) (by omega)]
  rfl

theorem natChars_four (n : Nat) (h1 : 1000 ≤ n) (h2 : n ≤ 9999) :
    natChars n = [digitChar (n / 1000), digitChar (n / 100 % 10),
      digitChar (n / 10 % 10), digitChar (n % 10)] := by
  have e1 : n / 10 / 10 = n / 100 := by omega
  have e2 : n / 100 / 10 = n / 1000 := by omega
  rw [natChars_decomp n (by omega), natChars_decomp (n / 10) (by omega), e1,
    natChars_two (n / 100) (by omega) (by omega), e2]
  rfl

theorem pad2_natToString (n : Nat) (h : n < 100) :
    (pad2 (natToString n)).data = [digitChar (n / 10), digitChar (n % 10)] := by
  by_cases h10 : n < 10
  · have hd : (natToString n).data = [digitChar n] := by
      rw [natToString_data, natChars_lt10 n h10]
    have hlen : (natToString n).length = 1 := by
      show (natToString n).data.length = 1
      rw [hd]
      rfl
    have hn10 : n / 10 = 0 := by omega
    have hd0 : digitChar 0 = '0' := rfl
    simp only [pad2, hlen]
    norm_num
    refine ⟨by rw [hn10]; rfl, ?_⟩
    have hmod : n % 10 = n := by omega
    rw [hmod]
    exact hd
  · have hd : (natToString n).data = [digitChar (n / 10), digitChar (n % 10)] := by
      rw [natToString_data, natChars_two n (by omega) h]
    have hlen : (natToString n).length = 2 := by
      show (natToString n).data.length = 2
      rw [hd]
      rfl
    simp only [pad2, hlen]
    norm_num
    exact hd

theorem digitsVal_two (a : Nat) (h : a < 100) :
    digitsVal [digitChar (a / 10), digitChar (a % 10)] = a := by
  simp only [digitsVal, List.foldl_cons, List.foldl_nil,
    digitChar_toNat (a / 10) (by omega), digitChar_toNat (a % 10) (by omega)]
  omega

theorem digitsVal_four (a : Nat) (h1 : 1000 ≤ a) (h2 : a ≤ 9999) :
    digitsVal [digitChar (a / 1000), digitChar (a / 100 % 10),
      digitChar (a / 10 % 10), digitChar (a % 10)] = a := by
  simp only [digitsVal, List.foldl_cons, List.foldl_nil,
    digitChar_toNat (a / 1000) (by omega), digitChar_toNat (a / 100 % 10) (by omega),
    digitChar_toNat (a / 10 % 10) (by omega), digitChar_toNat (a % 10) (by omega)]
  omega

theorem jsDot_of_isKeyChar (c : Char) (h : isKeyChar c = true) : jsDot c = true := by
  simp only [isKeyChar, Bool.or_eq_true, Bool.and_eq_true, decide_eq_true_eq,
    beq_iff_eq] at h
  have hout : c.toNat ≠ 10 ∧ c.toNat ≠ 13 ∧ c.toNat ≠ 8232 ∧ c.toNat ≠ 8233 := by
    rcases h with ((((⟨h1, h2⟩ | ⟨h1, h2⟩) | ⟨h1, h2⟩) | h1) | h1) <;>
      exact ⟨by omega, by omega, by omega, by omega⟩
  simp [jsDot, hout.1, hout.2.1, hout.2.2.1, hout.2.2.2]

theorem all_jsDot_of_all_key (l : List Char) (h : l.all isKeyChar = true) :
    l.all jsDot = true := by
  rw [List.all_eq_true] at *
  exact fun c hc => jsDot_of_isKeyChar c (h c hc)

theorem string_mk_data (s : String) : String.mk s.data = s := by
  cases s
  rfl

/-- C7: for every key in the allowed class (length 1..255 of letters, digits,
hyphen, underscore) and every calendar instant with a four-digit year,
parsing the generated filename together with the generated date folder
returns exactly the key and the instant truncated to second resolution. -/
theorem namer_roundTrip (k : String) (t : Instant) (today : Instant)
    (hk : validKey k = true) (ht : t.Valid) :
    parsePdfFilename (generatePdfFilename k t) (some (generateDateFolder t)) today =
      some (k, t.truncSec) := by
  obtain ⟨hy1, hy2, hmo, hd1, hd2, hh, hmi, hs⟩ := ht
  have hks : (1 ≤ k.length ∧ k.length ≤ 255) ∧ k.data.all isKeyChar = true := by
    simpa [validKey, Bool.and_eq_true, decide_eq_true_eq] using hk
  have hklen : k.length = k.data.length := rfl
  -- the timestamp part of the filename
  have hts : (generateTimestamp t).data =
      [digitChar (t.hour / 10), digitChar (t.hour % 10), '-',
       digitChar (t.minute / 10), digitChar (t.minute % 10), '-',
       digitChar (t.second / 10), digitChar (t.second % 10)] := by
    unfold generateTimestamp
    rw [String.data_append, String.data_append, String.data_append,
      String.data_append, pad2_natToString t.hour (by omega),
      pad2_natToString t.minute (by omega), pad2_natToString t.second (by omega)]
    rfl
  -- the full filename decomposes into the key and the fixed 14-character tail
  have hfile : (generatePdfFilename k t).data = k.data ++
      ['_', '_', digitChar (t.hour / 10), digitChar (t.hour % 10), '-',
       digitChar (t.minute / 10), digitChar (t.minute % 10), '-',
       digitChar (t.second / 10), digitChar (t.second % 10), '.', 'p', 'd', 'f'] := by
    unfold generatePdfFilename
    rw [String.data_append, String.data_append, String.data_append, hts]
    simp
  -- the date folder
  have hfolder : (generateDateFolder t).data =
      [digitChar (t.day / 10), digitChar (t.day % 10), '-',
       digitChar ((t.month0 + 1) / 10), digitChar ((t.month0 + 1) % 10), '-',
       digitChar (t.year / 1000), digitChar (t.year / 100 % 10),
       digitChar (t.year / 10 % 10), digitChar (t.year % 10)] := by
    unfold generateDateFolder
    rw [String.data_append, String.data_append, String.data_append,
      String.data_append, pad2_natToString t.day (by omega),
      pad2_natToString (t.month0 + 1) (by omega), natToString_data,
      natChars_four t.year (by omega) (by omega)]
    rfl
  have hbase : parseDateFolder (generateDateFolder t) today =
      (t.year, t.month0, t.day) := by
    unfold parseDateFolder
    rw [hfolder]
    have hcond : (('-' == '-') && ('-' == '-')
        && ([digitChar (t.day / 10), digitChar (t.day % 10),
             digitChar ((t.month0 + 1) / 10), digitChar ((t.month0 + 1) % 10),
             digitChar (t.year / 1000), digitChar (t.year / 100 % 10),
             digitChar (t.year / 10 % 10), digitChar (t.year % 10)].all isDigitChar))
        = true := by
      simp [digitChar_isDigit _ (by omega : t.day / 10 ≤ 9),
        digitChar_isDigit _ (by omega : t.day % 10 ≤ 9),
        digitChar_isDigit _ (by omega : (t.month0 + 1) / 10 ≤ 9),
        digitChar_isDigit _ (by omega : (t.month0 + 1) % 10 ≤ 9),
        digitChar_isDigit _ (by omega : t.year / 1000 ≤ 9),
        digitChar_isDigit _ (by omega : t.year / 100 % 10 ≤ 9),
        digitChar_isDigit _ (by omega : t.year / 10 % 10 ≤ 9),
        digitChar_isDigit _ (by omega : t.year % 10 ≤ 9)]
    simp only [hcond, if_pos]
    rw [digitsVal_four t.year (by omega) (by omega),
      digitsVal_two (t.month0 + 1) (by omega), digitsVal_two t.day (by omega)]
    simp
  -- assemble
  unfold parsePdfFilename
  rw [hfile]
  have hlen : (k.data ++
      ['_', '_', digitChar (t.hour / 10), digitChar (t.hour % 10), '-',
       digitChar (t.minute / 10), digitChar (t.minute % 10), '-',
       digitChar (t.second / 10), digitChar (t.second % 10), '.', 'p', 'd', 'f']).length
      = k.data.length + 14 := by
    rw [List.length_append]
    rfl
  have hnotlt : ¬ ((k.data ++
      ['_', '_', digitChar (t.hour / 10), digitChar (t.hour % 10), '-',
       digitChar (t.minute / 10), digitChar (t.minute % 10), '-',
       digitChar (t.second / 10), digitChar (t.second % 10), '.', 'p', 'd', 'f']).length
      < 15) := by
    rw [hlen]
    omega
  rw [if_neg hnotlt]
  have hsub : (k.data ++
      ['_', '_', digitChar (t.hour / 10), digitChar (t.hour % 10), '-',
       digitChar (t.minute / 10), digitChar (t.minute % 10), '-',
       digitChar (t.second / 10), digitChar (t.second % 10), '.', 'p', 'd', 'f']).length
      - 14 = k.data.length := by
    rw [hlen]
    omega
  rw [hsub, List.take_left, List.drop_left]
  have hguard : (('_' == '_') && ('_' == '_') && ('-' == '-') && ('-' == '-')
      && ('.' == '.') && ('p' == 'p') && ('d' == 'd') && ('f' == 'f')
      && ([digitChar (t.hour / 10), digitChar (t.hour % 10),
           digitChar (t.minute / 10), digitChar (t.minute % 10),
           digitChar (t.second / 10), digitChar (t.second % 10)].all isDigitChar)
      && (k.data.all jsDot)) = true := by
    simp [digitChar_isDigit _ (by omega : t.hour / 10 ≤ 9),
      digitChar_isDigit _ (by omega : t.hour % 10 ≤ 9),
      digitChar_isDigit _ (by omega : t.minute / 10 ≤ 9),
      digitChar_isDigit _ (by omega : t.minute % 10 ≤ 9),
      digitChar_isDigit _ (by omega : t.second / 10 ≤ 9),
      digitChar_isDigit _ (by omega : t.second % 10 ≤ 9),
      all_jsDot_of_all_key k.data hks.2]
  simp only [hguard, if_pos, hbase, string_mk_data,
    digitsVal_two t.hour (by omega), digitsVal_two t.minute (by omega),
    digitsVal_two t.second (by omega)]
  cases t
  rfl

/-- C7 witness: the round-trip theorem applied to the key "invoice-1" and a
concrete instant (2025-10-05 14:30:45.123 local time); the parsed result is
the instant truncated to seconds. -/
theorem namer_roundTrip_witness :
    parsePdfFilename
      (generatePdfFilename "invoice-1"
        { year := 2025, month0 := 9, day := 5, hour := 14, minute := 30,
          second := 45, ms := 123 })
      (some (generateDateFolder
        { year := 2025, month0 := 9, day := 5, hour := 14, minute := 30,
          second := 45, ms := 123 }))
      { year := 2026, month0 := 0, day := 1, hour := 0, minute := 0,
        second := 0, ms := 0 } =
      some ("invoice-1",
        { year := 2025, month0 := 9, day := 5, hour := 14, minute := 30,
          second := 45, ms := 0 }) :=
  namer_roundTrip "invoice-1"
    { year := 2025, month0 := 9, day := 5, hour := 14, minute := 30,
      second := 45, ms := 123 }
    { year := 2026, month0 := 0, day := 1, hour := 0, minute := 0,
      second := 0, ms := 0 }
    (by decide) (by decide)

end PdfService
